import Mathlib

/-!
Verification of the lazy flatbuffer-backed GraphQL schema decoder
(`src/compiler/crates/schema/src/fb_schema.rs`).

The development shallowly embeds the decoder. Conventions:

* `String` stands for both Rust `&str` and interned `StringKey`
  (interning is the identity in the model).
* Fallible Rust code is embedded in `DRes`: `ok` is a successful value,
  `absent` is the `None` that the Rust `?` operator propagates, and
  `fault` is a panic (`unwrap()` on `None`/`Err`, an out-of-bounds
  flatbuffers `Vector::get`, or unsigned underflow of `usize`
  arithmetic).
* Stateful methods (`&mut self`, mutating the schema store) are
  embedded as explicit state passing on the `Schema` store value.
* The mutually recursive resolution functions take an explicit fuel
  argument; exhausted fuel is reported as `fault` and never occurs in
  any theorem below (successful or absent outcomes at some fuel are the
  real outcomes of the Rust code, which recurses without a bound and
  terminates via the memoization cache).
-/

/-! ## Source positions and literal nodes (graphql_syntax collaborators) -/

/-- `common::Span`. -/
structure Span' where
  start : Nat
  end_ : Nat
deriving DecidableEq, Repr

/-- `graphql_syntax::TokenKind`; only `EndOfFile` is produced by this decoder. -/
inductive TokenKind' where
  | endOfFile
deriving DecidableEq, Repr

/-- `graphql_syntax::Token`. -/
structure Token' where
  span : Span'
  kind : TokenKind'
deriving DecidableEq, Repr

/-- `graphql_syntax::StringNode`. -/
structure StringNode where
  token : Token'
  value : String
deriving DecidableEq, Repr

/-- `graphql_syntax::BooleanNode`. -/
structure BooleanNode where
  token : Token'
  value : Bool
deriving DecidableEq, Repr

/-- `graphql_syntax::IntNode`; the Rust field is an `i64` obtained from
`str::parse`, modelled as `Int` (range-checked by the modelled parser). -/
structure IntNode where
  token : Token'
  value : Int
deriving DecidableEq, Repr

/-- Modelled from the spec: `graphql_syntax::FloatNode` retains "the parsed
floating-point value" (`FloatValue::new(value.parse::<f64>().unwrap())`)
alongside "the original source text" (`source_value`). The numeric value is
modelled as an exact rational; on every input appearing in the theorems
below the decimal text denotes a rational that `f64` represents exactly, so
the idealization is faithful there. -/
structure FloatNode where
  token : Token'
  value : ℚ
  source_value : String
deriving DecidableEq, Repr

/-- `graphql_syntax::EnumNode`. -/
structure EnumNode where
  token : Token'
  value : String
deriving DecidableEq, Repr

/-- `graphql_syntax::Identifier`. -/
structure Identifier where
  span : Span'
  token : Token'
  value : String
deriving DecidableEq, Repr

/- `graphql_syntax::ConstantValue` together with the monomorphised
`List<ConstantValue>` / `List<ConstantArgument>` node structures and
`ConstantArgument` (mutual recursion in place of the generic `List<T>`
node of graphql_syntax). -/
mutual
inductive ConstantValue where
  | null (token : Token')
  | string (node : StringNode)
  | boolean (node : BooleanNode)
  | int (node : IntNode)
  | float (node : FloatNode)
  | enum (node : EnumNode)
  | list (node : ConstListNode)
  | object (node : ConstObjNode)

inductive ConstListNode where
  | mk (span : Span') (start : Token') (items : List ConstantValue) (end_ : Token')

inductive ConstObjNode where
  | mk (span : Span') (start : Token') (items : List ConstantArgument) (end_ : Token')

inductive ConstantArgument where
  | mk (span : Span') (name : Identifier) (colon : Token') (value : ConstantValue)
end

def ConstListNode.items : ConstListNode → List ConstantValue
  | .mk _ _ items _ => items

def ConstObjNode.items : ConstObjNode → List ConstantArgument
  | .mk _ _ items _ => items

def ConstantArgument.name : ConstantArgument → Identifier
  | .mk _ name _ _ => name

def ConstantArgument.value : ConstantArgument → ConstantValue
  | .mk _ _ _ value => value

/-! ## Decode results

`DRes` separates the three runtime outcomes of a decode step. -/

inductive DRes (α : Type) where
  | ok (a : α)
  | absent
  | fault
deriving DecidableEq, Repr

def DRes.bind {α β : Type} : DRes α → (α → DRes β) → DRes β
  | .ok a, f => f a
  | .absent, _ => .absent
  | .fault, _ => .fault

def DRes.map {α β : Type} (f : α → β) : DRes α → DRes β
  | .ok a => .ok (f a)
  | .absent => .absent
  | .fault => .fault

/-- The Rust `?` operator on an `Option`: a missing optional field is absence. -/
def optQ {α : Type} : Option α → DRes α
  | some a => .ok a
  | none => .absent

/-- Rust `Option::unwrap`: a missing value is a panic. -/
def optUnwrap {α : Type} : Option α → DRes α
  | some a => .ok a
  | none => .fault

/-- Flatbuffers `Vector::get`: an out-of-bounds index is a fault. -/
def vecGet {α : Type} (l : List α) (i : Nat) : DRes α :=
  match l.get? i with
  | some a => .ok a
  | none => .fault

/-! ## Numeric text parsing (modelled) -/

/-- Value of a digit string, `none` if any character is not a digit. -/
def digitsVal (cs : List Char) : Option Nat :=
  cs.foldl
    (fun acc c =>
      acc.bind fun n => if c.isDigit then some (10 * n + (c.toNat - 48)) else none)
    (some 0)

/-- Split a character list at the first character satisfying `p`; the second
component is `none` when no such character occurs. -/
def splitAtFirst (p : Char → Bool) : List Char → List Char × Option (List Char)
  | [] => ([], none)
  | c :: cs =>
    if p c then ([], some cs)
    else
      let r := splitAtFirst p cs
      (c :: r.1, r.2)

/-- Modelled from the spec: the numeric semantics of Rust `str::parse::<f64>`
on the finite decimal forms `[+-]digits[.digits][e|E[+-]digits]` that the
binary encoder stores ("Int and Float are stored as text in the binary form
and must be re-parsed with the matching numeric semantics"). The value is
kept as an exact rational; non-numeric text yields `none`. -/
def parseFloatText (s : String) : Option ℚ :=
  let signed : ℚ × List Char :=
    match s.data with
    | '-' :: r => (-1, r)
    | '+' :: r => (1, r)
    | r => (1, r)
  let mantExp := splitAtFirst (fun c => c == 'e' || c == 'E') signed.2
  let intFrac := splitAtFirst (fun c => c == '.') mantExp.1
  let ip := intFrac.1
  let fp := (intFrac.2).getD []
  if ip.isEmpty && fp.isEmpty then none
  else
    match digitsVal ip, digitsVal fp with
    | some ipv, some fpv =>
      let mval : ℚ := signed.1 * ((ipv : ℚ) + (fpv : ℚ) / (10 : ℚ) ^ fp.length)
      match mantExp.2 with
      | none => some mval
      | some ecs =>
        let esigned : Int × List Char :=
          match ecs with
          | '-' :: r => (-1, r)
          | '+' :: r => (1, r)
          | r => (1, r)
        if esigned.2.isEmpty then none
        else
          match digitsVal esigned.2 with
          | some ev => some (mval * (10 : ℚ) ^ (esigned.1 * (ev : Int)))
          | none => none
    | _, _ => none

/-- Modelled from the spec: the semantics of Rust `str::parse::<i64>`
(optional sign, decimal digits, failing outside the `i64` range). -/
def parseIntText (s : String) : Option Int :=
  let signed : Int × List Char :=
    match s.data with
    | '-' :: r => (-1, r)
    | '+' :: r => (1, r)
    | r => (1, r)
  if signed.2.isEmpty then none
  else
    match digitsVal signed.2 with
    | some v =>
      let n : Int := signed.1 * (v : Int)
      if -(2 ^ 63) ≤ n ∧ n < 2 ^ 63 then some n else none
    | none => none

/-! ## Literal node constructors (`get_*` helpers of fb_schema.rs) -/

def get_empty_span : Span' := { start := 0, end_ := 0 }

def get_empty_token : Token' := { span := get_empty_span, kind := .endOfFile }

def get_identifier (value : String) : Identifier :=
  { span := get_empty_span, token := get_empty_token, value := value }

def get_enum_node (value : String) : EnumNode :=
  { token := get_empty_token, value := value }

/-- `get_float_node`: `value.parse::<f64>().unwrap()` panics (`fault`) on
text that does not parse as a number; on success the node keeps both the
parsed value and the unmodified source text. -/
def get_float_node (value : String) : DRes FloatNode :=
  match parseFloatText value with
  | some q => .ok { token := get_empty_token, value := q, source_value := value }
  | none => .fault

/-- `get_int_node`: `value.parse().unwrap()` panics (`fault`) on
non-numeric text. -/
def get_int_node (value : String) : DRes IntNode :=
  match parseIntText value with
  | some n => .ok { token := get_empty_token, value := n }
  | none => .fault

def get_boolean_node (value : Bool) : BooleanNode :=
  { token := get_empty_token, value := value }

def get_string_node (value : String) : StringNode :=
  { token := get_empty_token, value := value }

/-! ## Binary constant values (`FBConstValue` and friends)

The flatbuffers table carries a kind tag plus per-kind optional payload
accessors (`string_value()`, `int_value()`, `list_value()`, ...); each
constructor below is one kind carrying its payload, `Option` marking the
payloads whose accessor can return `None`. For `List` and `Object` the two
nested optional layers (`list_value()` / its `values()`, and
`object_value()` / its `fields()`) are collapsed into the single `Missing`
constructor, since the decoder treats both identically (absence). -/

mutual
inductive FBConstValue where
  | null
  | string (value : Option String)
  | bool (value : Bool)
  | int (value : Option String)
  | float (value : Option String)
  | enum (value : Option String)
  | listMissing
  | list (values : List FBConstValue)
  | objectMissing
  | object (fields : List FBObjectField)

inductive FBObjectField where
  | mk (name : Option String) (value : Option FBConstValue)
end

def FBObjectField.name : FBObjectField → Option String
  | .mk name _ => name

/-! ## The constant value decoder (pure, `&self` in Rust) -/

mutual
/-- `parse_const_value`. The `List` and `Object` arms build the node the
way `parse_list_value` / `parse_object_value` do; the standalone
`parse_list_value` / `parse_object_value` functions below are proved equal
to these arms (`parse_const_value_list_eq` / `parse_const_value_object_eq`). -/
def parse_const_value : FBConstValue → DRes ConstantValue
  | .null => .ok (.null get_empty_token)
  | .string none => .absent
  | .string (some s) => .ok (.string (get_string_node s))
  | .bool b => .ok (.boolean (get_boolean_node b))
  | .int none => .absent
  | .int (some s) => (get_int_node s).map ConstantValue.int
  | .float none => .absent
  | .float (some s) => (get_float_node s).map ConstantValue.float
  | .enum none => .absent
  | .enum (some s) => .ok (.enum (get_enum_node s))
  | .listMissing => .absent
  | .list vs =>
    match parse_const_values vs with
    | .ok items => .ok (.list (.mk get_empty_span get_empty_token items get_empty_token))
    | .absent => .absent
    | .fault => .fault
  | .objectMissing => .absent
  | .object fs =>
    match parse_object_fields fs with
    | .ok items => .ok (.object (.mk get_empty_span get_empty_token items get_empty_token))
    | .absent => .absent
    | .fault => .fault

/-- The `values.iter().map(parse_const_value).collect::<Option<Vec<_>>>()`
step of `parse_list_value`. -/
def parse_const_values : List FBConstValue → DRes (List ConstantValue)
  | [] => .ok []
  | v :: vs =>
    match parse_const_value v with
    | .ok c =>
      match parse_const_values vs with
      | .ok cs => .ok (c :: cs)
      | .absent => .absent
      | .fault => .fault
    | .absent => .absent
    | .fault => .fault

/-- The per-field map/collect step of `parse_object_value`: `field.name()?`
and `field.value()?` propagate absence, then the value decodes recursively. -/
def parse_object_fields : List FBObjectField → DRes (List ConstantArgument)
  | [] => .ok []
  | .mk none _ :: _ => .absent
  | .mk (some _) none :: _ => .absent
  | .mk (some n) (some v) :: fs =>
    match parse_const_value v with
    | .ok c =>
      match parse_object_fields fs with
      | .ok cs => .ok (.mk get_empty_span (get_identifier n) get_empty_token c :: cs)
      | .absent => .absent
      | .fault => .fault
    | .absent => .absent
    | .fault => .fault
end

/-- `parse_list_value`: decode each element in order and rebuild the list
node with empty position metadata. -/
def parse_list_value (values : List FBConstValue) : DRes ConstListNode :=
  match parse_const_values values with
  | .ok items => .ok (.mk get_empty_span get_empty_token items get_empty_token)
  | .absent => .absent
  | .fault => .fault

/-- `parse_object_value`: decode each `(name, value)` pair in order and
rebuild the object node with empty position metadata. -/
def parse_object_value (fields : List FBObjectField) : DRes ConstObjNode :=
  match parse_object_fields fields with
  | .ok items => .ok (.mk get_empty_span get_empty_token items get_empty_token)
  | .absent => .absent
  | .fault => .fault

/-- The `List` arm of `parse_const_value` is `parse_list_value`. -/
theorem parse_const_value_list_eq (vs : List FBConstValue) :
    parse_const_value (.list vs) = (parse_list_value vs).map ConstantValue.list := by
  simp only [parse_const_value, parse_list_value]
  cases parse_const_values vs <;> rfl

/-- The `Object` arm of `parse_const_value` is `parse_object_value`. -/
theorem parse_const_value_object_eq (fs : List FBObjectField) :
    parse_const_value (.object fs) = (parse_object_value fs).map ConstantValue.object := by
  simp only [parse_const_value, parse_object_value]
  cases parse_object_fields fs <;> rfl

/-! ## Directive locations (`get_mapped_location`) -/

/-- Modelled from the generated flatbuffers enum `FBDirectiveLocation`, whose
closed set of codes is witnessed by the exhaustive (wildcard-free) `match` in
`get_mapped_location`. -/
inductive FBDirectiveLocation where
  | query | mutation | subscription | field | fragmentDefinition
  | fragmentSpread | inlineFragment | schema | scalar | object
  | fieldDefinition | argumentDefinition | interface | union | enum
  | enumValue | inputObject | inputFieldDefinition | variableDefinition
deriving DecidableEq, Repr, Fintype

/-- `graphql_syntax::DirectiveLocation`, the logical directive location. -/
inductive DirectiveLocation where
  | query | mutation | subscription | field | fragmentDefinition
  | fragmentSpread | inlineFragment | schema | scalar | object
  | fieldDefinition | argumentDefinition | interface | union | enum
  | enumValue | inputObject | inputFieldDefinition | variableDefinition
deriving DecidableEq, Repr, Fintype

/-- `get_mapped_location`. -/
def get_mapped_location : FBDirectiveLocation → DirectiveLocation
  | .query => .query
  | .mutation => .mutation
  | .subscription => .subscription
  | .field => .field
  | .fragmentDefinition => .fragmentDefinition
  | .fragmentSpread => .fragmentSpread
  | .inlineFragment => .inlineFragment
  | .schema => .schema
  | .scalar => .scalar
  | .object => .object
  | .fieldDefinition => .fieldDefinition
  | .argumentDefinition => .argumentDefinition
  | .interface => .interface
  | .union => .union
  | .enum => .enum
  | .enumValue => .enumValue
  | .inputObject => .inputObject
  | .inputFieldDefinition => .inputFieldDefinition
  | .variableDefinition => .variableDefinition

/-! ## Resolved schema entities (crate::definitions collaborators)

Modelled from the spec's data model and the store interface: resolved
entities live in per-kind arenas inside the schema store and are referred
to by opaque stable ids, modelled as arena indices (`Nat`). -/

/-- `Type`: a resolved type, a kind tag carrying the opaque id into the
store's per-kind arena. -/
inductive Type' where
  | scalar (id : Nat)
  | object (id : Nat)
  | interface (id : Nat)
  | union (id : Nat)
  | enum (id : Nat)
  | inputObject (id : Nat)
deriving DecidableEq, Repr

/-- `Type::get_interface_id`. -/
def Type'.get_interface_id : Type' → Option Nat
  | .interface id => some id
  | _ => none

/-- `Type::get_object_id`. -/
def Type'.get_object_id : Type' → Option Nat
  | .object id => some id
  | _ => none

/-- `TypeReference`: the recursive `Named` / `NonNull` / `List` grammar. -/
inductive TypeReference where
  | named (type_ : Type')
  | nonNull (inner : TypeReference)
  | list (inner : TypeReference)
deriving DecidableEq, Repr

/-- `ArgumentValue`: one argument of an applied directive. -/
structure ArgumentValue where
  name : String
  value : ConstantValue

/-- `DirectiveValue`: an applied directive instance. -/
structure DirectiveValue where
  name : String
  arguments : List ArgumentValue

/-- `Argument`: an argument (or input-object field) definition. -/
structure Argument where
  name : String
  default_value : Option ConstantValue
  type_ : TypeReference

/-- `ArgumentDefinitions::new` is a plain wrapper around the item vector. -/
abbrev ArgumentDefinitions := List Argument

structure Scalar where
  name : String
  is_extension : Bool
  directives : List DirectiveValue

structure Object where
  name : String
  is_extension : Bool
  fields : List Nat
  interfaces : List Nat
  directives : List DirectiveValue

structure Interface where
  name : String
  is_extension : Bool
  implementing_objects : List Nat
  fields : List Nat
  directives : List DirectiveValue
  interfaces : List Nat

structure Union' where
  name : String
  is_extension : Bool
  members : List Nat
  directives : List DirectiveValue

structure EnumValue where
  value : String
  directives : List DirectiveValue

structure Enum' where
  name : String
  is_extension : Bool
  values : List EnumValue
  directives : List DirectiveValue

structure InputObject where
  name : String
  fields : ArgumentDefinitions
  directives : List DirectiveValue

/-- `Field` (the prime avoids Mathlib's `Field` class). -/
structure Field' where
  name : String
  is_extension : Bool
  arguments : ArgumentDefinitions
  type_ : TypeReference
  directives : List DirectiveValue
  parent_type : Option Type'

structure Directive where
  name : String
  is_extension : Bool
  arguments : ArgumentDefinitions
  locations : List DirectiveLocation
  repeatable : Bool

/-! ## The schema store (external collaborator) -/

/-- First-match lookup in the name → type map. -/
def lookupTM : List (String × Type') → String → Option Type'
  | [], _ => none
  | (k, v) :: rest, n => if k = n then some v else lookupTM rest n

/-- Update the element at index `i`, identity outside the list. -/
def updateAt {α : Type} : List α → Nat → (α → α) → List α
  | [], _, _ => []
  | a :: rest, 0, f => f a :: rest
  | a :: rest, i + 1, f => a :: updateAt rest i f

/-- Modelled from the spec: the external mutable schema store. Per-kind
arenas hand back opaque stable ids (their indices); `add_scalar` /
`add_object` / ... register the entity and key it by name in `type_map`, so
that "from then on every lookup by that name returns the same cached
identity"; edges are attached to already-registered entities in place.
Successful insertions append, so existing ids and name bindings are never
disturbed; inserting a type or directive under an already-bound name is
refused (`none`), which the decoder's `.unwrap()` turns into a panic — the
spec's "programming-error-class fault" for duplicate-name insertion. -/
structure Schema where
  type_map : List (String × Type')
  scalars : List Scalar
  objects : List Object
  interfaces : List Interface
  unions : List Union'
  enums : List Enum'
  input_objects : List InputObject
  fields : List Field'
  directives : List Directive

def Schema.get_type (s : Schema) (type_name : String) : Option Type' :=
  lookupTM s.type_map type_name

def Schema.has_type (s : Schema) (type_name : String) : Bool :=
  (s.get_type type_name).isSome

def Schema.get_directive (s : Schema) (directive_name : String) : Option Directive :=
  s.directives.find? (fun d => d.name = directive_name)

def Schema.add_scalar (s : Schema) (sc : Scalar) : Option (Nat × Schema) :=
  if (lookupTM s.type_map sc.name).isSome then none
  else some (s.scalars.length,
    { s with
      scalars := s.scalars ++ [sc]
      type_map := s.type_map ++ [(sc.name, .scalar s.scalars.length)] })

def Schema.add_object (s : Schema) (o : Object) : Option (Nat × Schema) :=
  if (lookupTM s.type_map o.name).isSome then none
  else some (s.objects.length,
    { s with
      objects := s.objects ++ [o]
      type_map := s.type_map ++ [(o.name, .object s.objects.length)] })

def Schema.add_interface (s : Schema) (i : Interface) : Option (Nat × Schema) :=
  if (lookupTM s.type_map i.name).isSome then none
  else some (s.interfaces.length,
    { s with
      interfaces := s.interfaces ++ [i]
      type_map := s.type_map ++ [(i.name, .interface s.interfaces.length)] })

def Schema.add_union (s : Schema) (u : Union') : Option (Nat × Schema) :=
  if (lookupTM s.type_map u.name).isSome then none
  else some (s.unions.length,
    { s with
      unions := s.unions ++ [u]
      type_map := s.type_map ++ [(u.name, .union s.unions.length)] })

def Schema.add_enum (s : Schema) (e : Enum') : Option (Nat × Schema) :=
  if (lookupTM s.type_map e.name).isSome then none
  else some (s.enums.length,
    { s with
      enums := s.enums ++ [e]
      type_map := s.type_map ++ [(e.name, .enum s.enums.length)] })

def Schema.add_input_object (s : Schema) (io : InputObject) : Option (Nat × Schema) :=
  if (lookupTM s.type_map io.name).isSome then none
  else some (s.input_objects.length,
    { s with
      input_objects := s.input_objects ++ [io]
      type_map := s.type_map ++ [(io.name, .inputObject s.input_objects.length)] })

def Schema.add_field (s : Schema) (f : Field') : Nat × Schema :=
  (s.fields.length, { s with fields := s.fields ++ [f] })

def Schema.add_field_to_object (s : Schema) (oid fid : Nat) : Schema :=
  { s with objects := updateAt s.objects oid (fun o => { o with fields := o.fields ++ [fid] }) }

def Schema.add_field_to_interface (s : Schema) (iid fid : Nat) : Schema :=
  { s with interfaces := updateAt s.interfaces iid (fun i => { i with fields := i.fields ++ [fid] }) }

def Schema.add_interface_to_object (s : Schema) (oid iid : Nat) : Schema :=
  { s with objects := updateAt s.objects oid (fun o => { o with interfaces := o.interfaces ++ [iid] }) }

def Schema.add_parent_interface_to_interface (s : Schema) (iid pid : Nat) : Schema :=
  { s with interfaces := updateAt s.interfaces iid (fun i => { i with interfaces := i.interfaces ++ [pid] }) }

def Schema.add_implementing_object_to_interface (s : Schema) (iid oid : Nat) : Schema :=
  { s with
    interfaces := updateAt s.interfaces iid
      (fun i => { i with implementing_objects := i.implementing_objects ++ [oid] }) }

def Schema.add_member_to_union (s : Schema) (uid oid : Nat) : Schema :=
  { s with unions := updateAt s.unions uid (fun u => { u with members := u.members ++ [oid] }) }

def Schema.add_directive (s : Schema) (d : Directive) : Option Schema :=
  if (s.get_directive d.name).isSome then none
  else some { s with directives := s.directives ++ [d] }

/-- The store a fresh session starts from. -/
def emptySchema : Schema :=
  { type_map := [], scalars := [], objects := [], interfaces := [], unions := []
    enums := [], input_objects := [], fields := [], directives := [] }

/-! ## Binary records (generated flatbuffers tables) -/

inductive FBTypeKind where
  | scalar | inputObject | enum | object | interface | union
deriving DecidableEq, Repr

/-- `FBType`: a kind tag plus the record id into the matching per-kind
table (`scalar_id()` / `object_id()` / ... — the accessor selected by
`kind()` is the only one the decoder ever reads, so one `id` field models
them all). -/
structure FBType where
  kind : FBTypeKind
  id : Nat
deriving DecidableEq, Repr

/-- `FBTypeReference`: a kind tag plus the optional payload accessor of
that kind (`named()`, `null()`, `list()`). -/
inductive FBTypeReference where
  | named (named : Option FBType)
  | nonNull (null : Option FBTypeReference)
  | list (list : Option FBTypeReference)

structure FBArgumentValue where
  name : Option String
  value : Option FBConstValue

structure FBDirectiveValue where
  name : Option String
  arguments : Option (List FBArgumentValue)

structure FBArgument where
  name : Option String
  value : Option FBConstValue
  type_ : Option FBTypeReference

structure FBField where
  name : Option String
  is_extension : Bool
  arguments : Option (List FBArgument)
  type_ : Option FBTypeReference
  directives : Option (List FBDirectiveValue)
  parent_type : Option FBType

structure FBScalar where
  name : Option String
  is_extension : Bool
  directives : Option (List FBDirectiveValue)

structure FBObject where
  name : Option String
  is_extension : Bool
  fields : Option (List Nat)
  interfaces : Option (List Nat)
  directives : Option (List FBDirectiveValue)

structure FBInterface where
  name : Option String
  is_extension : Bool
  fields : Option (List Nat)
  interfaces : Option (List Nat)
  implementing_objects : Option (List Nat)
  directives : Option (List FBDirectiveValue)

structure FBUnion where
  name : Option String
  is_extension : Bool
  members : Option (List Nat)
  directives : Option (List FBDirectiveValue)

structure FBEnumValue where
  value : Option String
  directives : Option (List FBDirectiveValue)

structure FBEnum where
  name : Option String
  is_extension : Bool
  values : Option (List FBEnumValue)
  directives : Option (List FBDirectiveValue)

structure FBInputObject where
  name : Option String
  fields : Option (List FBArgument)
  directives : Option (List FBDirectiveValue)

structure FBDirective where
  name : Option String
  is_extension : Bool
  repeatable : Bool
  locations : Option (List FBDirectiveLocation)
  arguments : Option (List FBArgument)

/-- `FlatBufferSchema`: the root record. The two sorted indices are lists
of `(key, value())` pairs (an `FBTypeMap` / `FBDirectiveMap` entry exposes
its required key and an optional value record); `build` has already
unwrapped the indices themselves, while every per-kind table is re-read by
an optional accessor on each use and so stays `Option`. -/
structure FlatBufferSchema where
  types : List (String × Option FBType)
  directives : List (String × Option FBDirective)
  scalars : Option (List FBScalar)
  objects : Option (List FBObject)
  interfaces : Option (List FBInterface)
  unions : Option (List FBUnion)
  enums : Option (List FBEnum)
  input_objects : Option (List FBInputObject)
  fields : Option (List FBField)

/-! ## Key comparison and the binary search -/

/-- Lexicographic comparison of characters by code point; UTF-8 byte order
(the order used by flatbuffers `key_compare_with_value`) coincides with
code point order. -/
def charListCmp : List Char → List Char → Ordering
  | [], [] => .eq
  | [], _ :: _ => .lt
  | _ :: _, [] => .gt
  | a :: restA, b :: restB =>
    match compare a.toNat b.toNat with
    | .eq => charListCmp restA restB
    | o => o

/-- `key_compare_with_value`: the stored key compared against the queried
name. -/
def strCmp (key name : String) : Ordering :=
  charListCmp key.data name.data

/-- Outcome of one run of the `read_type` / `read_directive` search loop. -/
inductive BinSearchOutcome (β : Type) where
  | found (value : Option β)
  | miss
  | fault
deriving DecidableEq, Repr

/-- The `while start <= end` loop of `read_type` / `read_directive`,
verbatim: `mid = (start + end) / 2`; an `Equal` comparison returns the
entry's optional value record; `Less` sets `start = mid + 1`; otherwise
`end = mid - 1`. `fault` models the two panics the loop can reach: indexing
the table at `mid ≥ length` (flatbuffers `Vector::get` out of bounds) and
computing `mid - 1 = 0 - 1` on the unsigned `usize` bound. The fuel only
bounds the loop's iteration count and exceeds it at every use below. -/
def binSearchGo {β : Type} (table : List (String × Option β)) (name : String) :
    Nat → Nat → Nat → BinSearchOutcome β
  | _, _, 0 => .fault
  | start, e, fuel + 1 =>
    if start ≤ e then
      let mid := (start + e) / 2
      match table.get? mid with
      | none => .fault
      | some entry =>
        match strCmp entry.1 name with
        | .eq => .found entry.2
        | .lt => binSearchGo table name (mid + 1) e fuel
        | .gt =>
          if mid = 0 then .fault
          else binSearchGo table name start (mid - 1) fuel
    else .miss

/-- The search as `read_type` / `read_directive` start it:
`start = 0`, `end = len()`. -/
def binSearch {β : Type} (table : List (String × Option β)) (name : String) :
    BinSearchOutcome β :=
  binSearchGo table name 0 table.length (table.length + 2)

/-! ## The state-passing resolution monad -/

/-- A `&mut self` decode step: it consumes the store and yields the decode
outcome together with the store it leaves behind (meaningful for `ok` and
for `absent` — a stub registered before a failure stays in the store). -/
def M (α : Type) : Type := Schema → DRes α × Schema

def M.pure {α : Type} (a : α) : M α := fun s => (.ok a, s)

def M.bind {α β : Type} (x : M α) (f : α → M β) : M β := fun s =>
  match x s with
  | (.ok a, s₁) => f a s₁
  | (.absent, s₁) => (.absent, s₁)
  | (.fault, s₁) => (.fault, s₁)

instance : Monad M where
  pure := M.pure
  bind := M.bind

/-- Lift a pure decode outcome (a `&self` helper) into the monad. -/
def M.lift {α : Type} : DRes α → M α
  | .ok a => M.pure a
  | .absent => fun s => (.absent, s)
  | .fault => fun s => (.fault, s)

def M.absent {α : Type} : M α := fun s => (.absent, s)

def M.fault {α : Type} : M α := fun s => (.fault, s)

/-- The `?` operator on an optional flatbuffers field. -/
def M.opt {α : Type} (o : Option α) : M α := M.lift (optQ o)

/-- `Option::unwrap`. -/
def M.unwrap {α : Type} (o : Option α) : M α := M.lift (optUnwrap o)

/-- Flatbuffers `Vector::get` (panics out of bounds). -/
def M.vecGet {α : Type} (l : List α) (i : Nat) : M α :=
  match l.get? i with
  | some a => M.pure a
  | none => M.fault

def M.modifyS (f : Schema → Schema) : M Unit := fun s => (.ok (), f s)

/-- A fallible store insertion followed by the decoder's `.unwrap()`:
a refused (duplicate-name) insertion is a panic. -/
def M.addOrPanic {α : Type} (f : Schema → Option (α × Schema)) : M α := fun s =>
  match f s with
  | some r => (.ok r.1, r.2)
  | none => (.fault, s)

/-- `self.schema.add_directive(..).unwrap()`. -/
def M.addDirectiveOrPanic (d : Directive) : M Unit := fun s =>
  match s.add_directive d with
  | some s' => (.ok (), s')
  | none => (.fault, s)

/-! ## Pure (`&self`) decode helpers -/

/-- The `iter().map(f).collect::<Option<Vec<_>>>()` idiom on a pure decoder. -/
def mapDRes {α β : Type} (f : α → DRes β) : List α → DRes (List β)
  | [] => .ok []
  | a :: rest =>
    (f a).bind fun b => (mapDRes f rest).bind fun bs => .ok (b :: bs)

/-- `parse_argument_value`. -/
def parse_argument_value (argument : FBArgumentValue) : DRes ArgumentValue :=
  (optQ argument.name).bind fun name =>
    (optQ argument.value).bind fun v =>
      (parse_const_value v).bind fun value =>
        .ok { name := name, value := value }

/-- `parse_argument_values`. -/
def parse_argument_values (arguments : List FBArgumentValue) : DRes (List ArgumentValue) :=
  mapDRes parse_argument_value arguments

/-- `parse_directive_value` (`directive.arguments()?` decodes first, then the
name is read). -/
def parse_directive_value (directive : FBDirectiveValue) : DRes DirectiveValue :=
  (optQ directive.arguments).bind fun args =>
    (parse_argument_values args).bind fun arguments =>
      (optQ directive.name).bind fun name =>
        .ok { name := name, arguments := arguments }

/-- `parse_directive_values`. -/
def parse_directive_values (directives : List FBDirectiveValue) : DRes (List DirectiveValue) :=
  mapDRes parse_directive_value directives

/-- `parse_enum_value` (directives decode first, then the value is read). -/
def parse_enum_value (value : FBEnumValue) : DRes EnumValue :=
  (optQ value.directives).bind fun dirs =>
    (parse_directive_values dirs).bind fun directives =>
      (optQ value.value).bind fun v =>
        .ok { value := v, directives := directives }

/-- `parse_enum_values`. -/
def parse_enum_values (values : List FBEnumValue) : DRes (List EnumValue) :=
  mapDRes parse_enum_value values

/-- `get_fbtype_name`: read the referenced record's name out of the per-kind
table; every step here is `unwrap()` / `Vector::get`, so a missing table,
an out-of-range id or a missing name is a fault. -/
def get_fbtype_name (fb : FlatBufferSchema) (type_ : FBType) : DRes String :=
  match type_.kind with
  | .scalar =>
    (optUnwrap fb.scalars).bind fun t => (vecGet t type_.id).bind fun r => optUnwrap r.name
  | .inputObject =>
    (optUnwrap fb.input_objects).bind fun t => (vecGet t type_.id).bind fun r => optUnwrap r.name
  | .enum =>
    (optUnwrap fb.enums).bind fun t => (vecGet t type_.id).bind fun r => optUnwrap r.name
  | .object =>
    (optUnwrap fb.objects).bind fun t => (vecGet t type_.id).bind fun r => optUnwrap r.name
  | .interface =>
    (optUnwrap fb.interfaces).bind fun t => (vecGet t type_.id).bind fun r => optUnwrap r.name
  | .union =>
    (optUnwrap fb.unions).bind fun t => (vecGet t type_.id).bind fun r => optUnwrap r.name

/-! ## The lazy resolver

The mutually recursive `&mut self` methods. The per-method structure
follows the Rust source line by line; the extra `Nat` is fuel (see the file
header), and the `*_loop` functions are the `for` loops of the
corresponding methods. -/

mutual

/-- `get_type`: consult the store's cache first; on a miss, read the binary
index. -/
def get_type (fb : FlatBufferSchema) : Nat → String → M Type'
  | 0, _ => M.fault
  | fuel + 1, type_name => fun s =>
    if !(s.has_type type_name) then read_type fb fuel type_name s
    else
      match s.get_type type_name with
      | some t => (.ok t, s)
      | none => (.absent, s)
termination_by structural fuel _ => fuel

/-- `read_type`: binary-search the sorted type index, then decode the
matching record. -/
def read_type (fb : FlatBufferSchema) : Nat → String → M Type'
  | 0, _ => M.fault
  | fuel + 1, type_name =>
    match binSearch fb.types type_name with
    | .fault => M.fault
    | .miss => M.absent
    | .found none => M.absent
    | .found (some type_) => parse_type fb fuel type_
termination_by structural fuel _ => fuel

/-- `parse_type`: six-way kind dispatch. -/
def parse_type (fb : FlatBufferSchema) : Nat → FBType → M Type'
  | 0, _ => M.fault
  | fuel + 1, type_ =>
    match type_.kind with
    | .scalar => parse_scalar fb fuel type_.id
    | .inputObject => parse_input_object fb fuel type_.id
    | .enum => parse_enum fb fuel type_.id
    | .object => parse_object fb fuel type_.id
    | .interface => parse_interface fb fuel type_.id
    | .union => parse_union fb fuel type_.id
termination_by structural fuel _ => fuel

/-- `parse_scalar` (single-phase: no post-registration edges). -/
def parse_scalar (fb : FlatBufferSchema) : Nat → Nat → M Type'
  | 0, _ => M.fault
  | _ + 1, id =>
    M.bind (M.opt fb.scalars) (fun scalars =>
    M.bind (M.vecGet scalars id) (fun scalar =>
    M.bind (M.opt scalar.name) (fun name =>
    M.bind (M.opt scalar.directives) (fun dirs =>
    M.bind (M.lift (parse_directive_values dirs)) (fun directives =>
    M.bind (M.addOrPanic (fun s => s.add_scalar
        { name := name, is_extension := scalar.is_extension, directives := directives }))
      (fun nid => M.pure (.scalar nid)))))))

/-- `parse_input_object` (single-phase). -/
def parse_input_object (fb : FlatBufferSchema) : Nat → Nat → M Type'
  | 0, _ => M.fault
  | fuel + 1, id =>
    M.bind (M.opt fb.input_objects) (fun input_objects =>
    M.bind (M.vecGet input_objects id) (fun input_object =>
    M.bind (M.opt input_object.name) (fun name =>
    M.bind (M.opt input_object.fields) (fun fieldArgs =>
    M.bind (parse_arguments fb fuel fieldArgs) (fun fields =>
    M.bind (M.opt input_object.directives) (fun dirs =>
    M.bind (M.lift (parse_directive_values dirs)) (fun directives =>
    M.bind (M.addOrPanic (fun s =>
        s.add_input_object { name := name, fields := fields, directives := directives }))
      (fun nid => M.pure (.inputObject nid)))))))))
termination_by structural fuel _ => fuel

/-- `parse_enum` (single-phase). -/
def parse_enum (fb : FlatBufferSchema) : Nat → Nat → M Type'
  | 0, _ => M.fault
  | _ + 1, id =>
    M.bind (M.opt fb.enums) (fun enums =>
    M.bind (M.vecGet enums id) (fun enum_ =>
    M.bind (M.opt enum_.name) (fun name =>
    M.bind (M.opt enum_.values) (fun vals =>
    M.bind (M.lift (parse_enum_values vals)) (fun values =>
    M.bind (M.opt enum_.directives) (fun dirs =>
    M.bind (M.lift (parse_directive_values dirs)) (fun directives =>
    M.bind (M.addOrPanic (fun s => s.add_enum
        { name := name, is_extension := enum_.is_extension, values := values
          directives := directives }))
      (fun nid => M.pure (.enum nid)))))))))

/-- `parse_object`: register the stub (empty `fields` / `interfaces`) to
obtain `new_id`, then populate fields and interface edges. -/
def parse_object (fb : FlatBufferSchema) : Nat → Nat → M Type'
  | 0, _ => M.fault
  | fuel + 1, id =>
    M.bind (M.opt fb.objects) (fun objects =>
    M.bind (M.vecGet objects id) (fun object =>
    M.bind (M.opt object.name) (fun name =>
    M.bind (M.opt object.directives) (fun dirs =>
    M.bind (M.lift (parse_directive_values dirs)) (fun directives =>
    M.bind (M.addOrPanic (fun s => s.add_object
          { name := name, is_extension := object.is_extension, fields := []
            interfaces := [], directives := directives })) (fun new_id =>
    M.bind (M.opt object.fields) (fun fids =>
    M.bind (object_fields_loop fb fuel new_id fids) (fun _ =>
    M.bind (M.opt object.interfaces) (fun iids =>
    M.bind (object_interfaces_loop fb fuel new_id iids) (fun _ =>
    M.pure (.object new_id)))))))))))
termination_by structural fuel _ => fuel

/-- The `for field_id in object.fields()?` loop of `parse_object`. -/
def object_fields_loop (fb : FlatBufferSchema) : Nat → Nat → List Nat → M Unit
  | 0, _, _ => M.fault
  | _ + 1, _, [] => M.pure ()
  | fuel + 1, new_id, field_id :: rest =>
    M.bind (parse_field fb fuel field_id) (fun field =>
    M.bind (M.modifyS (fun s => s.add_field_to_object new_id field)) (fun _ =>
    object_fields_loop fb fuel new_id rest))
termination_by structural fuel _ _ => fuel

/-- The `for interface_id in object.interfaces()?` loop of `parse_object`:
resolve the referenced interface by name through `get_type`, then attach
the edge. -/
def object_interfaces_loop (fb : FlatBufferSchema) : Nat → Nat → List Nat → M Unit
  | 0, _, _ => M.fault
  | _ + 1, _, [] => M.pure ()
  | fuel + 1, new_id, interface_id :: rest =>
    M.bind (M.opt fb.interfaces) (fun interfaces =>
    M.bind (M.vecGet interfaces interface_id) (fun irec =>
    M.bind (M.opt irec.name) (fun iname =>
    M.bind (get_type fb fuel iname) (fun interface =>
    M.bind (M.opt interface.get_interface_id) (fun iid =>
    M.bind (M.modifyS (fun s => s.add_interface_to_object new_id iid)) (fun _ =>
    object_interfaces_loop fb fuel new_id rest))))))
termination_by structural fuel _ _ => fuel

/-- `parse_interface`: register the stub, then populate fields, parent
interfaces and implementing objects. -/
def parse_interface (fb : FlatBufferSchema) : Nat → Nat → M Type'
  | 0, _ => M.fault
  | fuel + 1, id =>
    M.bind (M.opt fb.interfaces) (fun interfaces =>
    M.bind (M.vecGet interfaces id) (fun interface =>
    M.bind (M.opt interface.name) (fun name =>
    M.bind (M.opt interface.directives) (fun dirs =>
    M.bind (M.lift (parse_directive_values dirs)) (fun directives =>
    M.bind (M.addOrPanic (fun s => s.add_interface
          { name := name, is_extension := interface.is_extension
            implementing_objects := [], fields := [], directives := directives
            interfaces := [] })) (fun new_id =>
    M.bind (M.opt interface.fields) (fun fids =>
    M.bind (interface_fields_loop fb fuel new_id fids) (fun _ =>
    M.bind (M.opt interface.interfaces) (fun pids =>
    M.bind (interface_parents_loop fb fuel new_id pids) (fun _ =>
    M.bind (M.opt interface.implementing_objects) (fun oids =>
    M.bind (interface_objects_loop fb fuel new_id oids) (fun _ =>
    M.pure (.interface new_id)))))))))))))
termination_by structural fuel _ => fuel

/-- The `for field_id in interface.fields()?` loop of `parse_interface`. -/
def interface_fields_loop (fb : FlatBufferSchema) : Nat → Nat → List Nat → M Unit
  | 0, _, _ => M.fault
  | _ + 1, _, [] => M.pure ()
  | fuel + 1, new_id, field_id :: rest =>
    M.bind (parse_field fb fuel field_id) (fun field =>
    M.bind (M.modifyS (fun s => s.add_field_to_interface new_id field)) (fun _ =>
    interface_fields_loop fb fuel new_id rest))
termination_by structural fuel _ _ => fuel

/-- The `for interface_id in interface.interfaces()?` loop of
`parse_interface`. -/
def interface_parents_loop (fb : FlatBufferSchema) : Nat → Nat → List Nat → M Unit
  | 0, _, _ => M.fault
  | _ + 1, _, [] => M.pure ()
  | fuel + 1, new_id, interface_id :: rest =>
    M.bind (M.opt fb.interfaces) (fun interfaces =>
    M.bind (M.vecGet interfaces interface_id) (fun irec =>
    M.bind (M.opt irec.name) (fun iname =>
    M.bind (get_type fb fuel iname) (fun interface =>
    M.bind (M.opt interface.get_interface_id) (fun iid =>
    M.bind (M.modifyS (fun s => s.add_parent_interface_to_interface new_id iid)) (fun _ =>
    interface_parents_loop fb fuel new_id rest))))))
termination_by structural fuel _ _ => fuel

/-- The `for object_id in interface.implementing_objects()?` loop of
`parse_interface`. -/
def interface_objects_loop (fb : FlatBufferSchema) : Nat → Nat → List Nat → M Unit
  | 0, _, _ => M.fault
  | _ + 1, _, [] => M.pure ()
  | fuel + 1, new_id, object_id :: rest =>
    M.bind (M.opt fb.objects) (fun objects =>
    M.bind (M.vecGet objects object_id) (fun orec =>
    M.bind (M.opt orec.name) (fun oname =>
    M.bind (get_type fb fuel oname) (fun object =>
    M.bind (M.opt object.get_object_id) (fun oid =>
    M.bind (M.modifyS (fun s => s.add_implementing_object_to_interface new_id oid)) (fun _ =>
    interface_objects_loop fb fuel new_id rest))))))
termination_by structural fuel _ _ => fuel

/-- `parse_union`: register the stub, then populate member edges. -/
def parse_union (fb : FlatBufferSchema) : Nat → Nat → M Type'
  | 0, _ => M.fault
  | fuel + 1, id =>
    M.bind (M.opt fb.unions) (fun unions =>
    M.bind (M.vecGet unions id) (fun union =>
    M.bind (M.opt union.name) (fun name =>
    M.bind (M.opt union.directives) (fun dirs =>
    M.bind (M.lift (parse_directive_values dirs)) (fun directives =>
    M.bind (M.addOrPanic (fun s => s.add_union
          { name := name, is_extension := union.is_extension, members := []
            directives := directives })) (fun new_id =>
    M.bind (M.opt union.members) (fun oids =>
    M.bind (union_members_loop fb fuel new_id oids) (fun _ =>
    M.pure (.union new_id)))))))))
termination_by structural fuel _ => fuel

/-- The `for object_id in union.members()?` loop of `parse_union`. -/
def union_members_loop (fb : FlatBufferSchema) : Nat → Nat → List Nat → M Unit
  | 0, _, _ => M.fault
  | _ + 1, _, [] => M.pure ()
  | fuel + 1, new_id, object_id :: rest =>
    M.bind (M.opt fb.objects) (fun objects =>
    M.bind (M.vecGet objects object_id) (fun orec =>
    M.bind (M.opt orec.name) (fun oname =>
    M.bind (get_type fb fuel oname) (fun object =>
    M.bind (M.opt object.get_object_id) (fun oid =>
    M.bind (M.modifyS (fun s => s.add_member_to_union new_id oid)) (fun _ =>
    union_members_loop fb fuel new_id rest))))))
termination_by structural fuel _ _ => fuel

/-- `parse_field`: decode one field record and insert it into the store's
field arena. The resolved `parent_type` is `self.get_type(...)`'s `Option`
stored as-is (no `?`): a parent that fails to resolve leaves `none`. -/
def parse_field (fb : FlatBufferSchema) : Nat → Nat → M Nat
  | 0, _ => M.fault
  | fuel + 1, id =>
    M.bind (M.opt fb.fields) (fun fieldsTable =>
    M.bind (M.vecGet fieldsTable id) (fun field =>
    M.bind (M.opt field.name) (fun name =>
    M.bind (M.opt field.arguments) (fun args =>
    M.bind (parse_arguments fb fuel args) (fun arguments =>
    M.bind (M.opt field.type_) (fun tref =>
    M.bind (parse_type_reference fb fuel tref) (fun type_ =>
    M.bind (M.opt field.directives) (fun dirs =>
    M.bind (M.lift (parse_directive_values dirs)) (fun directives =>
    M.bind (M.opt field.parent_type) (fun ptype =>
    M.bind (M.lift (get_fbtype_name fb ptype)) (fun pname =>
    M.bind (fun s =>
        match get_type fb fuel pname s with
        | (.ok t, s') => (.ok (some t), s')
        | (.absent, s') => (.ok (none : Option Type'), s')
        | (.fault, s') => (.fault, s')) (fun parent_type =>
    fun s =>
      let r := s.add_field
        { name := name, is_extension := field.is_extension, arguments := arguments
          type_ := type_, directives := directives, parent_type := parent_type }
      (.ok r.1, r.2)))))))))))))
termination_by structural fuel _ => fuel

/-- `parse_arguments`: decode every argument in order and wrap with
`ArgumentDefinitions::new`. -/
def parse_arguments (fb : FlatBufferSchema) : Nat → List FBArgument → M ArgumentDefinitions
  | 0, _ => M.fault
  | fuel + 1, arguments =>
    M.bind (parse_arguments_go fb fuel arguments) (fun items => M.pure items)
termination_by structural fuel _ => fuel

/-- The map/collect step of `parse_arguments`. -/
def parse_arguments_go (fb : FlatBufferSchema) : Nat → List FBArgument → M (List Argument)
  | 0, _ => M.fault
  | _ + 1, [] => M.pure []
  | fuel + 1, argument :: rest =>
    M.bind (parse_argument fb fuel argument) (fun arg =>
    M.bind (parse_arguments_go fb fuel rest) (fun args =>
    M.pure (arg :: args)))
termination_by structural fuel _ => fuel

/-- `parse_argument`: `argument.name().unwrap()` (a missing name is a
panic), an optional default constant value (`Some(...?)` propagates a
failing decode), and the argument's type reference. -/
def parse_argument (fb : FlatBufferSchema) : Nat → FBArgument → M Argument
  | 0, _ => M.fault
  | fuel + 1, argument =>
    M.bind (M.unwrap argument.name) (fun name =>
    M.bind (match argument.value with
      | some v => M.bind (M.lift (parse_const_value v)) (fun c => M.pure (some c))
      | none => M.pure (none : Option ConstantValue)) (fun default_value =>
    M.bind (M.opt argument.type_) (fun tref =>
    M.bind (parse_type_reference fb fuel tref) (fun type_ =>
    M.pure { name := name, default_value := default_value, type_ := type_ }))))
termination_by structural fuel _ => fuel

/-- `parse_type_reference`: recursive descent over `Named` / `NonNull` /
`List`; the `Named` terminal resolves the referenced type through
`get_type` and `unwrap()`s the result (an unresolvable name is a panic). -/
def parse_type_reference (fb : FlatBufferSchema) : Nat → FBTypeReference → M TypeReference
  | 0, _ => M.fault
  | fuel + 1, type_reference =>
    match type_reference with
    | .named named =>
      M.bind (M.opt named) (fun fbt =>
      M.bind (M.lift (get_fbtype_name fb fbt)) (fun type_name =>
      fun s =>
        match get_type fb fuel type_name s with
        | (.ok t, s') => (.ok (TypeReference.named t), s')
        | (.absent, s') => (.fault, s')
        | (.fault, s') => (.fault, s')))
    | .nonNull null =>
      M.bind (M.opt null) (fun inner =>
      M.bind (parse_type_reference fb fuel inner) (fun r =>
      M.pure (TypeReference.nonNull r)))
    | .list list =>
      M.bind (M.opt list) (fun inner =>
      M.bind (parse_type_reference fb fuel inner) (fun r =>
      M.pure (TypeReference.list r)))
termination_by structural fuel _ => fuel

/-- `get_directive`: consult the store's cache first; on a miss, read the
binary directive index. -/
def get_directive (fb : FlatBufferSchema) : Nat → String → M Directive
  | 0, _ => M.fault
  | fuel + 1, directive_name => fun s =>
    if (s.get_directive directive_name).isNone then read_directive fb fuel directive_name s
    else
      match s.get_directive directive_name with
      | some d => (.ok d, s)
      | none => (.absent, s)

/-- `read_directive`: binary-search the sorted directive index, then decode
the matching record. -/
def read_directive (fb : FlatBufferSchema) : Nat → String → M Directive
  | 0, _ => M.fault
  | fuel + 1, name =>
    match binSearch fb.directives name with
    | .fault => M.fault
    | .miss => M.absent
    | .found none => M.absent
    | .found (some directive) => parse_directive fb fuel directive

/-- `parse_directive`: decode locations, name and arguments, register the
directive in the store, and return the store's cached entry for the name. -/
def parse_directive (fb : FlatBufferSchema) : Nat → FBDirective → M Directive
  | 0, _ => M.fault
  | fuel + 1, directive =>
    M.bind (M.opt directive.locations) (fun locs =>
    let locations := locs.map get_mapped_location
    M.bind (M.opt directive.name) (fun name =>
    M.bind (M.opt directive.arguments) (fun args =>
    M.bind (parse_arguments fb fuel args) (fun arguments =>
    M.bind (M.addDirectiveOrPanic
        { name := name, is_extension := directive.is_extension
          arguments := arguments, locations := locations
          repeatable := directive.repeatable }) (fun _ =>
    M.bind (M.opt directive.name) (fun name2 =>
    fun s =>
      match s.get_directive name2 with
      | some d => (.ok d, s)
      | none => (.absent, s)))))))

end

/-- `has_type` (public): defined as `get_type(type_name).is_some()` — it
runs the full resolution, including its store mutations. -/
def has_type (fb : FlatBufferSchema) (fuel : Nat) (type_name : String) : M Bool := fun s =>
  match get_type fb fuel type_name s with
  | (.ok _, s') => (.ok true, s')
  | (.absent, s') => (.ok false, s')
  | (.fault, s') => (.fault, s')

/-! ## Concrete buffers used as test fixtures -/

/-- A buffer whose two indices are empty (size-0 tables). -/
def fbEmptyIndex : FlatBufferSchema :=
  { types := [], directives := [], scalars := none, objects := none, interfaces := none
    unions := none, enums := none, input_objects := none, fields := none }

/-- A buffer with a single scalar type named `"b"`. -/
def fbOneScalar : FlatBufferSchema :=
  { types := [(("b"), some { kind := .scalar, id := 0 })], directives := []
    scalars := some [{ name := some ("b"), is_extension := false, directives := some [] }]
    objects := none, interfaces := none, unions := none, enums := none
    input_objects := none, fields := none }

/-- A buffer with object `"O"` implementing interface `"I"`, whose
implementing-objects list conversely references `"O"` (the mutual
back-reference of C3). The index is sorted: `"I" < "O"`. -/
def fbCyc : FlatBufferSchema :=
  { types := [(("I"), some { kind := .interface, id := 0 }),
              (("O"), some { kind := .object, id := 0 })]
    directives := []
    scalars := none
    objects := some [{ name := some ("O"), is_extension := false, fields := some []
                       interfaces := some [0], directives := some [] }]
    interfaces := some [{ name := some ("I"), is_extension := false, fields := some []
                          interfaces := some [], implementing_objects := some [0]
                          directives := some [] }]
    unions := none, enums := none, input_objects := none, fields := none }

/-! ## C9: the directive-location mapping -/

/-- C9: `get_mapped_location` is total on the closed enumeration of
directive-location codes — every code maps to exactly one logical
`DirectiveLocation` — and injective — no two distinct codes map to the
same location. -/
theorem c9_mapped_location_total_injective :
    (∀ c : FBDirectiveLocation, ∃! l : DirectiveLocation, get_mapped_location c = l) ∧
    Function.Injective get_mapped_location :=
  ⟨fun c => ⟨get_mapped_location c, rfl, fun _ h => h.symm⟩, by decide⟩

/-! ## C1 and C4: the binary search faults on boundary misses

The `while start <= end` loop starts with `end = len` (not `len - 1`).
On a size-0 table the first iteration already indexes the table at
`mid = 0 ≥ len`; on a miss below the first key the `Greater` branch
computes `end = 0 - 1`, which underflows `usize`. Both are faults, not
clean misses. -/

/-- C1: divergence witness — on the size-0 table the very first probe of
`read_type`'s search indexes the empty vector (out of bounds), so a lookup
faults instead of returning the clean miss the claim requires. -/
theorem c1_search_empty_table_faults :
    binSearch ([] : List (String × Option FBType)) ("Query") = .fault ∧
    get_type fbEmptyIndex 5 ("Query") emptySchema = (.fault, emptySchema) :=
  ⟨rfl, rfl⟩

/-- C4: divergence witness — querying `"a"`, lexicographically below the
single key `"b"`, makes the search take the `Greater` branch at `mid = 0`
and compute `end = 0 - 1`, an unsigned underflow: `get_type` faults instead
of returning a clean `None` with the store untouched. -/
theorem c4_miss_below_first_key_faults :
    binSearch fbOneScalar.types ("a") = .fault ∧
    get_type fbOneScalar 5 ("a") emptySchema = (.fault, emptySchema) :=
  ⟨rfl, rfl⟩

/-! ## C3: mutual interface/object recursion terminates consistently -/

/-- C3: in `fbCyc` (object `O` implements interface `I`; `I` lists `O` as
implementing object), resolving `"I"` first or `"O"` first both terminate
(they succeed with finite fuel): each produces the stub-then-populate
graph in which `O`'s interfaces contain `I`'s id and `I`'s
implementing-objects contain `O`'s id, and afterwards the other name is
already cached (fuel 1, a pure cache hit, returns it unchanged). -/
theorem c3_mutual_recursion_consistent :
    ((get_type fbCyc 20 ("I") emptySchema).1 = .ok (.interface 0) ∧
     ((get_type fbCyc 20 ("I") emptySchema).2.objects.get? 0).map Object.interfaces =
       some [0] ∧
     ((get_type fbCyc 20 ("I") emptySchema).2.interfaces.get? 0).map
       Interface.implementing_objects = some [0] ∧
     get_type fbCyc 1 ("O") (get_type fbCyc 20 ("I") emptySchema).2 =
       (.ok (.object 0), (get_type fbCyc 20 ("I") emptySchema).2)) ∧
    ((get_type fbCyc 20 ("O") emptySchema).1 = .ok (.object 0) ∧
     ((get_type fbCyc 20 ("O") emptySchema).2.objects.get? 0).map Object.interfaces =
       some [0] ∧
     ((get_type fbCyc 20 ("O") emptySchema).2.interfaces.get? 0).map
       Interface.implementing_objects = some [0] ∧
     get_type fbCyc 1 ("I") (get_type fbCyc 20 ("O") emptySchema).2 =
       (.ok (.interface 0), (get_type fbCyc 20 ("O") emptySchema).2)) :=
  ⟨⟨rfl, rfl, rfl, rfl⟩, ⟨rfl, rfl, rfl, rfl⟩⟩

/-! ## C7: float literals keep value and source text -/

/-- C7: for every Float constant literal whose stored text parses as a
number, `get_float_node` — and hence the `Float` arm of
`parse_const_value` — produces a node that retains both the parsed numeric
value and the original source text unmodified. -/
theorem c7_float_value_and_source_retained :
    ∀ (s : String) (q : ℚ), parseFloatText s = some q →
      get_float_node s = .ok { token := get_empty_token, value := q, source_value := s } ∧
      parse_const_value (.float (some s)) =
        .ok (.float { token := get_empty_token, value := q, source_value := s }) := by
  intro s q h
  have h1 : get_float_node s =
      .ok { token := get_empty_token, value := q, source_value := s } := by
    simp [get_float_node, h]
  refine ⟨h1, ?_⟩
  have h2 : parse_const_value (.float (some s)) = (get_float_node s).map ConstantValue.float :=
    rfl
  rw [h2, h1]
  rfl

/-- C7 witness: source text `"1.50"` decodes to the numeric value `3 / 2`
(that is, 1.5) while the retained source text is exactly `"1.50"` — no
normalization of the trailing zero. -/
theorem c7_float_witness :
    parse_const_value (.float (some ("1.50"))) =
      .ok (.float { token := get_empty_token, value := 3 / 2, source_value := "1.50" }) :=
  (c7_float_value_and_source_retained ("1.50") (3 / 2) (by
    have h : parseFloatText ("1.50") =
        some ((1 : ℚ) * (((1 : ℕ) : ℚ) + ((50 : ℕ) : ℚ) / (10 : ℚ) ^ (2 : ℕ))) := rfl
    rw [h]
    norm_num)).2

/-! ## C8: list and object constant values decode order-preservingly -/

/-- Elementwise description of the map/collect step over list elements. -/
theorem parse_const_values_elementwise :
    ∀ (vs : List FBConstValue) (cs : List ConstantValue),
      parse_const_values vs = .ok cs →
      cs.length = vs.length ∧
      ∀ (i : Nat) (v : FBConstValue), vs.get? i = some v →
        ∃ c, parse_const_value v = .ok c ∧ cs.get? i = some c := by
  intro vs
  induction vs with
  | nil =>
    intro cs h
    simp only [parse_const_values] at h
    cases h
    exact ⟨rfl, by intro i v hv; rw [List.get?_nil] at hv; exact Option.noConfusion hv⟩
  | cons v rest ih =>
    intro cs h
    cases hv : parse_const_value v with
    | ok c =>
      cases hr : parse_const_values rest with
      | ok cs' =>
        simp only [parse_const_values, hv, hr] at h
        cases h
        obtain ⟨hlen, helem⟩ := ih cs' hr
        refine ⟨by simp [hlen], ?_⟩
        intro i w hw
        cases i with
        | zero =>
          rw [List.get?_cons_zero] at hw
          cases hw
          exact ⟨c, hv, rfl⟩
        | succ j =>
          rw [List.get?_cons_succ] at hw
          obtain ⟨cj, hcj, hget⟩ := helem j w hw
          exact ⟨cj, hcj, by rw [List.get?_cons_succ]; exact hget⟩
      | absent => simp only [parse_const_values, hv, hr] at h; exact DRes.noConfusion h
      | fault => simp only [parse_const_values, hv, hr] at h; exact DRes.noConfusion h
    | absent => simp only [parse_const_values, hv] at h; exact DRes.noConfusion h
    | fault => simp only [parse_const_values, hv] at h; exact DRes.noConfusion h

/-- Elementwise description of the map/collect step over object fields:
names are kept verbatim per position (duplicates included). -/
theorem parse_object_fields_elementwise :
    ∀ (fs : List FBObjectField) (items : List ConstantArgument),
      parse_object_fields fs = .ok items →
      items.length = fs.length ∧
      ∀ (i : Nat) (f : FBObjectField), fs.get? i = some f →
        ∃ n v c, f = .mk (some n) (some v) ∧ parse_const_value v = .ok c ∧
          items.get? i = some (.mk get_empty_span (get_identifier n) get_empty_token c) := by
  intro fs
  induction fs with
  | nil =>
    intro items h
    simp only [parse_object_fields] at h
    cases h
    exact ⟨rfl, by intro i f hf; rw [List.get?_nil] at hf; exact Option.noConfusion hf⟩
  | cons f rest ih =>
    intro items h
    cases f with
    | mk name value =>
      cases name with
      | none => simp only [parse_object_fields] at h; exact DRes.noConfusion h
      | some n =>
        cases value with
        | none => simp only [parse_object_fields] at h; exact DRes.noConfusion h
        | some v =>
          cases hv : parse_const_value v with
          | ok c =>
            cases hr : parse_object_fields rest with
            | ok items' =>
              simp only [parse_object_fields, hv, hr] at h
              cases h
              obtain ⟨hlen, helem⟩ := ih items' hr
              refine ⟨by simp [hlen], ?_⟩
              intro i g hg
              cases i with
              | zero =>
                rw [List.get?_cons_zero] at hg
                cases hg
                exact ⟨n, v, c, rfl, hv, rfl⟩
              | succ j =>
                rw [List.get?_cons_succ] at hg
                obtain ⟨nj, vj, cj, hfj, hcj, hget⟩ := helem j g hg
                exact ⟨nj, vj, cj, hfj, hcj, by rw [List.get?_cons_succ]; exact hget⟩
            | absent => simp only [parse_object_fields, hv, hr] at h; exact DRes.noConfusion h
            | fault => simp only [parse_object_fields, hv, hr] at h; exact DRes.noConfusion h
          | absent => simp only [parse_object_fields, hv] at h; exact DRes.noConfusion h
          | fault => simp only [parse_object_fields, hv] at h; exact DRes.noConfusion h

/-- C8: `parse_list_value` decodes elementwise, preserving the encoded
order (the empty list decodes to the empty list node), and
`parse_object_value` preserves the encoded `(name, value)` pair order
verbatim — each decoded item at position `i` carries exactly the `i`-th
encoded field's name, so duplicates are neither merged nor reordered. -/
theorem c8_list_object_decode_preserves_order :
    (∀ (vs : List FBConstValue) (node : ConstListNode),
      parse_list_value vs = .ok node →
      node.items.length = vs.length ∧
      ∀ (i : Nat) (v : FBConstValue), vs.get? i = some v →
        ∃ c, parse_const_value v = .ok c ∧ node.items.get? i = some c) ∧
    parse_list_value [] = .ok (.mk get_empty_span get_empty_token [] get_empty_token) ∧
    (∀ (fs : List FBObjectField) (node : ConstObjNode),
      parse_object_value fs = .ok node →
      node.items.length = fs.length ∧
      ∀ (i : Nat) (f : FBObjectField), fs.get? i = some f →
        ∃ n v c, f = .mk (some n) (some v) ∧ parse_const_value v = .ok c ∧
          node.items.get? i = some (.mk get_empty_span (get_identifier n) get_empty_token c)) := by
  refine ⟨?_, rfl, ?_⟩
  · intro vs node h
    simp only [parse_list_value] at h
    cases hc : parse_const_values vs with
    | ok cs =>
      rw [hc] at h
      cases h
      exact parse_const_values_elementwise vs cs hc
    | absent => rw [hc] at h; cases h
    | fault => rw [hc] at h; cases h
  · intro fs node h
    simp only [parse_object_value] at h
    cases hc : parse_object_fields fs with
    | ok items =>
      rw [hc] at h
      cases h
      exact parse_object_fields_elementwise fs items hc
    | absent => rw [hc] at h; cases h
    | fault => rw [hc] at h; cases h

/-- C8 witness: a two-element list and a two-field object whose two fields
share the name `"a"` decode with both positions intact (length 2 each). -/
theorem c8_order_duplicates_witness :
    (ConstListNode.mk get_empty_span get_empty_token
        [.null get_empty_token, .boolean (get_boolean_node true)] get_empty_token).items.length =
      ([FBConstValue.null, FBConstValue.bool true]).length ∧
    (ConstObjNode.mk get_empty_span get_empty_token
        [.mk get_empty_span (get_identifier ("a")) get_empty_token (.null get_empty_token),
         .mk get_empty_span (get_identifier ("a")) get_empty_token
           (.boolean (get_boolean_node true))]
        get_empty_token).items.length =
      ([FBObjectField.mk (some ("a")) (some .null),
        FBObjectField.mk (some ("a")) (some (.bool true))]).length :=
  ⟨(c8_list_object_decode_preserves_order.1 [.null, .bool true] _ rfl).1,
   (c8_list_object_decode_preserves_order.2.2
      [.mk (some ("a")) (some .null), .mk (some ("a")) (some (.bool true))] _ rfl).1⟩

/-- C9 witness: the mapping evaluated at a concrete code, and injectivity
applied at a concrete pair. -/
theorem c9_mapped_location_witness :
    (∃! l : DirectiveLocation, get_mapped_location .query = l) ∧
    (FBDirectiveLocation.query = FBDirectiveLocation.query) :=
  ⟨c9_mapped_location_total_injective.1 .query,
   c9_mapped_location_total_injective.2 (show get_mapped_location .query =
     get_mapped_location .query from rfl)⟩

/-! ## C6: type references decode to the exact encoded shape -/

/-- The bare `Named` / `NonNull` / `List` skeleton of a type reference. -/
inductive RefShape where
  | named
  | nonNull (inner : RefShape)
  | list (inner : RefShape)
deriving DecidableEq, Repr

/-- Skeleton of an encoded reference; `none` when some nested payload is
missing. -/
def fbRefShape : FBTypeReference → Option RefShape
  | .named (some _) => some .named
  | .named none => none
  | .nonNull (some r) => (fbRefShape r).map RefShape.nonNull
  | .nonNull none => none
  | .list (some r) => (fbRefShape r).map RefShape.list
  | .list none => none

/-- Skeleton of a resolved reference. -/
def refShape : TypeReference → RefShape
  | .named _ => .named
  | .nonNull r => .nonNull (refShape r)
  | .list r => .list (refShape r)

/-- C6: whenever `parse_type_reference` succeeds, the decoded
`TypeReference` has exactly the encoded skeleton over
`{Named, NonNull, List}` — nesting structure and order are reproduced, with
`Named` the sole terminal (resolved through `get_type`). -/
theorem c6_type_reference_shape_preserved :
    ∀ (fuel : Nat) (fb : FlatBufferSchema) (r : FBTypeReference) (s : Schema)
      (tr : TypeReference) (s' : Schema),
      parse_type_reference fb fuel r s = (.ok tr, s') →
      fbRefShape r = some (refShape tr) := by
  intro fuel
  induction fuel with
  | zero =>
    intro fb r s tr s' h
    exact absurd (congrArg Prod.fst h) (by simp [parse_type_reference, M.fault])
  | succ fuel ih =>
    intro fb r s tr s' h
    cases r with
    | named o =>
      cases o with
      | none =>
        simp only [parse_type_reference, M.bind, M.opt, M.lift, optQ] at h
        exact DRes.noConfusion (congrArg Prod.fst h)
      | some fbt =>
        simp only [parse_type_reference, M.bind, M.opt, M.lift, optQ, M.pure] at h
        cases hn : get_fbtype_name fb fbt with
        | ok nm =>
          rw [hn] at h
          simp only [M.pure] at h
          rcases hg : get_type fb fuel nm s with ⟨res, s₁⟩
          rw [hg] at h
          cases res with
          | ok t =>
            cases h
            rfl
          | absent => exact DRes.noConfusion (congrArg Prod.fst h)
          | fault => exact DRes.noConfusion (congrArg Prod.fst h)
        | absent => rw [hn] at h; exact DRes.noConfusion (congrArg Prod.fst h)
        | fault => rw [hn] at h; exact DRes.noConfusion (congrArg Prod.fst h)
    | nonNull o =>
      cases o with
      | none =>
        simp only [parse_type_reference, M.bind, M.opt, M.lift, optQ] at h
        exact DRes.noConfusion (congrArg Prod.fst h)
      | some r0 =>
        simp only [parse_type_reference, M.bind, M.opt, M.lift, optQ, M.pure] at h
        rcases hg : parse_type_reference fb fuel r0 s with ⟨res, s₁⟩
        rw [hg] at h
        cases res with
        | ok inner =>
          simp only [M.pure] at h
          cases h
          have := ih fb r0 s inner _ hg
          simp [fbRefShape, refShape, this]
        | absent => exact DRes.noConfusion (congrArg Prod.fst h)
        | fault => exact DRes.noConfusion (congrArg Prod.fst h)
    | list o =>
      cases o with
      | none =>
        simp only [parse_type_reference, M.bind, M.opt, M.lift, optQ] at h
        exact DRes.noConfusion (congrArg Prod.fst h)
      | some r0 =>
        simp only [parse_type_reference, M.bind, M.opt, M.lift, optQ, M.pure] at h
        rcases hg : parse_type_reference fb fuel r0 s with ⟨res, s₁⟩
        rw [hg] at h
        cases res with
        | ok inner =>
          simp only [M.pure] at h
          cases h
          have := ih fb r0 s inner _ hg
          simp [fbRefShape, refShape, this]
        | absent => exact DRes.noConfusion (congrArg Prod.fst h)
        | fault => exact DRes.noConfusion (congrArg Prod.fst h)

/-- A buffer with a single scalar type named `"Int"`. -/
def fbIntScalar : FlatBufferSchema :=
  { types := [(("Int"), some { kind := .scalar, id := 0 })], directives := []
    scalars := some [{ name := some ("Int"), is_extension := false, directives := some [] }]
    objects := none, interfaces := none, unions := none, enums := none
    input_objects := none, fields := none }

/-- The encoding of `List(NonNull(Named("Int")))`. -/
def listNonNullIntRef : FBTypeReference :=
  .list (some (.nonNull (some (.named (some { kind := .scalar, id := 0 })))))

/-- C6 witness: `List(NonNull(Named("Int")))` decodes to exactly
`TypeReference.List(NonNull(Named(Int-scalar)))`, and the general theorem
applied to that run confirms the skeleton. -/
theorem c6_type_reference_shape_witness :
    parse_type_reference fbIntScalar 10 listNonNullIntRef emptySchema =
      (.ok (.list (.nonNull (.named (.scalar 0)))),
        { type_map := [(("Int"), .scalar 0)]
          scalars := [{ name := ("Int"), is_extension := false, directives := [] }]
          objects := [], interfaces := [], unions := [], enums := [], input_objects := []
          fields := [], directives := [] }) ∧
    fbRefShape listNonNullIntRef = some (refShape (.list (.nonNull (.named (.scalar 0))))) :=
  ⟨rfl,
   c6_type_reference_shape_preserved 10 fbIntScalar listNonNullIntRef emptySchema
     (.list (.nonNull (.named (.scalar 0))))
     { type_map := [(("Int"), .scalar 0)]
       scalars := [{ name := ("Int"), is_extension := false, directives := [] }]
       objects := [], interfaces := [], unions := [], enums := [], input_objects := []
       fields := [], directives := [] } rfl⟩

/-! ## C5: absence propagation versus numeric-parse panics -/

/-- A buffer whose single object `"O"` has a field `"f"` with one argument
whose `Float` default carries the unparseable text `"abc"`. -/
def fbBadFloat : FlatBufferSchema :=
  { types := [(("O"), some { kind := .object, id := 0 })], directives := []
    scalars := none
    objects := some [{ name := some ("O"), is_extension := false, fields := some [0]
                       interfaces := some [], directives := some [] }]
    interfaces := none, unions := none, enums := none, input_objects := none
    fields := some [{ name := some ("f"), is_extension := false
                      arguments := some [{ name := some ("a")
                                           value := some (.float (some ("abc")))
                                           type_ := none }]
                      type_ := none, directives := none, parent_type := none }] }

/-- Like `fbBadFloat`, but the argument's default value and type reference
are *missing* optional fields rather than malformed text. -/
def fbMissField : FlatBufferSchema :=
  { types := [(("O"), some { kind := .object, id := 0 })], directives := []
    scalars := none
    objects := some [{ name := some ("O"), is_extension := false, fields := some [0]
                       interfaces := some [], directives := some [] }]
    interfaces := none, unions := none, enums := none, input_objects := none
    fields := some [{ name := some ("f"), is_extension := false
                      arguments := some [{ name := some ("a"), value := none, type_ := none }]
                      type_ := none, directives := none, parent_type := none }] }

/-- C5 counterexample: the claim says an unparseable numeric literal makes
the chain return `None`; in fact `get_float_node`'s
`value.parse::<f64>().unwrap()` panics, so the originating `get_type`
faults — a crash, not absence. -/
theorem c5_malformed_float_faults :
    (get_type fbBadFloat 20 ("O") emptySchema).1 = .fault ∧
    (DRes.fault : DRes Type') ≠ .absent :=
  ⟨rfl, fun h => DRes.noConfusion h⟩

/-- An argument record with present name, missing default value and missing
type reference makes `parse_argument` report absence without touching the
store. -/
theorem parse_argument_missing_absent :
    ∀ (fb : FlatBufferSchema) (fuel : Nat) (argument : FBArgument) (s : Schema) (n : String),
      argument.name = some n → argument.value = none → argument.type_ = none →
      parse_argument fb (fuel + 1) argument s = (.absent, s) := by
  intro fb fuel argument s n h1 h2 h3
  simp [parse_argument, h1, h2, h3, M.bind, M.unwrap, M.opt, M.lift, optUnwrap, optQ, M.pure]

/-- A field whose first argument fails with absence reports absence itself,
leaving the store as it was. -/
theorem parse_field_missing_absent :
    ∀ (fb : FlatBufferSchema) (fuel : Nat) (s : Schema) (id : Nat)
      (ftbl : List FBField) (field : FBField) (n : String)
      (argument : FBArgument) (rest : List FBArgument) (m : String),
      fb.fields = some ftbl → ftbl.get? id = some field → field.name = some n →
      field.arguments = some (argument :: rest) →
      argument.name = some m → argument.value = none → argument.type_ = none →
      parse_field fb (fuel + 4) id s = (.absent, s) := by
  intro fb fuel s id ftbl field n argument rest m hfb hget hname hargs ha1 ha2 ha3
  have ha := parse_argument_missing_absent fb fuel argument s m ha1 ha2 ha3
  have hget' : ftbl[id]? = some field := by
    rw [← List.get?_eq_getElem?]
    exact hget
  show parse_field fb ((fuel + 3) + 1) id s = (.absent, s)
  simp [parse_field, hfb, hget', hname, hargs, parse_arguments, parse_arguments_go,
    M.bind, M.opt, M.vecGet, M.lift, optQ, M.pure, ha]

/-- A missing argument name is read by `argument.name().unwrap()`
(not by `?`), so it is a panic, not absence. -/
theorem parse_argument_missing_name_faults :
    ∀ (fb : FlatBufferSchema) (fuel : Nat) (argument : FBArgument) (s : Schema),
      argument.name = none → parse_argument fb (fuel + 1) argument s = (.fault, s) := by
  intro fb fuel argument s h
  simp [parse_argument, h, M.bind, M.unwrap, M.lift, optUnwrap]

/-- `get_fbtype_name` reads the per-kind table by `.unwrap()`, so a missing
table is a panic, not absence. -/
theorem get_fbtype_name_missing_table_faults :
    ∀ (fb : FlatBufferSchema) (id : Nat), fb.scalars = none →
      get_fbtype_name fb { kind := FBTypeKind.scalar, id := id } = .fault := by
  intro fb id h
  simp [get_fbtype_name, h, optUnwrap, DRes.bind]

/-- C5 (amended): a missing optional binary field that the code reads with
the `?` operator signals absence, and that absence propagates through
composition: an argument whose (unwrap-read) name is present but whose
default value and type reference are missing makes `parse_argument` return
`None` with the store untouched, a field whose first argument so fails
returns `None`, and the originating top-level `get_type` returns `None`
with the already-registered stub remaining in the store. Optional fields
the code reads with `.unwrap()` are instead panics when missing — a missing
argument name (`parse_argument`) and a missing per-kind table
(`get_fbtype_name`) fault — as does an unparseable numeric literal (see the
counterexample). -/
theorem c5_missing_absence_propagates :
    (∀ (fb : FlatBufferSchema) (fuel : Nat) (argument : FBArgument) (s : Schema) (n : String),
      argument.name = some n → argument.value = none → argument.type_ = none →
      parse_argument fb (fuel + 1) argument s = (.absent, s)) ∧
    (∀ (fb : FlatBufferSchema) (fuel : Nat) (s : Schema) (id : Nat)
      (ftbl : List FBField) (field : FBField) (n : String)
      (argument : FBArgument) (rest : List FBArgument) (m : String),
      fb.fields = some ftbl → ftbl.get? id = some field → field.name = some n →
      field.arguments = some (argument :: rest) →
      argument.name = some m → argument.value = none → argument.type_ = none →
      parse_field fb (fuel + 4) id s = (.absent, s)) ∧
    get_type fbMissField 20 ("O") emptySchema =
      (.absent,
        { type_map := [(("O"), .object 0)]
          scalars := []
          objects := [{ name := ("O"), is_extension := false, fields := []
                        interfaces := [], directives := [] }]
          interfaces := [], unions := [], enums := [], input_objects := []
          fields := [], directives := [] }) ∧
    (∀ (fb : FlatBufferSchema) (fuel : Nat) (argument : FBArgument) (s : Schema),
      argument.name = none → parse_argument fb (fuel + 1) argument s = (.fault, s)) ∧
    (∀ (fb : FlatBufferSchema) (id : Nat), fb.scalars = none →
      get_fbtype_name fb { kind := FBTypeKind.scalar, id := id } = .fault) :=
  ⟨parse_argument_missing_absent, parse_field_missing_absent, rfl,
   parse_argument_missing_name_faults, get_fbtype_name_missing_table_faults⟩

/-- C5 witness: the amended claim applied at concrete inputs — an argument
and a field of `fbMissField` with `?`-read fields missing report absence,
while a missing (unwrap-read) argument name and a missing per-kind table
fault. -/
theorem c5_missing_absence_witness :
    parse_argument fbMissField 3 { name := some ("a"), value := none, type_ := none }
      emptySchema = (.absent, emptySchema) ∧
    parse_field fbMissField 6 0 emptySchema = (.absent, emptySchema) ∧
    parse_argument fbMissField 3 { name := none, value := none, type_ := none }
      emptySchema = (.fault, emptySchema) ∧
    get_fbtype_name fbMissField { kind := FBTypeKind.scalar, id := 0 } = .fault :=
  ⟨c5_missing_absence_propagates.1 fbMissField 2
      { name := some ("a"), value := none, type_ := none } emptySchema ("a") rfl rfl rfl,
   c5_missing_absence_propagates.2.1 fbMissField 2 emptySchema 0 _ _ ("f")
      { name := some ("a"), value := none, type_ := none } [] ("a")
      rfl rfl rfl rfl rfl rfl rfl,
   c5_missing_absence_propagates.2.2.2.1 fbMissField 2
      { name := none, value := none, type_ := none } emptySchema rfl,
   c5_missing_absence_propagates.2.2.2.2 fbMissField 0 rfl⟩

/-! ## Store-extension infrastructure for the memoization proofs -/

theorem lookupTM_append_some {l₁ l₂ : List (String × Type')} {n : String} {t : Type'}
    (h : lookupTM l₁ n = some t) : lookupTM (l₁ ++ l₂) n = some t := by
  induction l₁ with
  | nil => simp [lookupTM] at h
  | cons p rest ih =>
    rcases p with ⟨k, v⟩
    by_cases hk : k = n
    · simp only [lookupTM, hk, if_pos rfl] at h
      simp only [List.cons_append, lookupTM, if_pos hk]
      exact h
    · simp only [lookupTM, if_neg hk] at h
      simp only [List.cons_append, lookupTM, if_neg hk]
      exact ih h

theorem lookupTM_append_none {l₁ l₂ : List (String × Type')} {n : String}
    (h : lookupTM l₁ n = none) : lookupTM (l₁ ++ l₂) n = lookupTM l₂ n := by
  induction l₁ with
  | nil => simp
  | cons p rest ih =>
    rcases p with ⟨k, v⟩
    by_cases hk : k = n
    · simp only [lookupTM, if_pos hk] at h
      exact Option.noConfusion h
    · simp only [lookupTM, if_neg hk] at h
      simp only [List.cons_append, lookupTM, if_neg hk]
      exact ih h

/-- The second store extends the first: its type map is the first's with
entries appended (never removed or overwritten, so cached bindings stay). -/
def TMExt (s₁ s₂ : Schema) : Prop := ∃ l, s₂.type_map = s₁.type_map ++ l

theorem TMExt.re (s : Schema) : TMExt s s := ⟨[], (List.append_nil _).symm⟩

theorem TMExt.tr {s₁ s₂ s₃ : Schema} (h1 : TMExt s₁ s₂) (h2 : TMExt s₂ s₃) : TMExt s₁ s₃ := by
  obtain ⟨l1, e1⟩ := h1
  obtain ⟨l2, e2⟩ := h2
  exact ⟨l1 ++ l2, by rw [e2, e1, List.append_assoc]⟩

theorem TMExt.lookup_some {s₁ s₂ : Schema} {n : String} {t : Type'} (h : TMExt s₁ s₂)
    (hl : lookupTM s₁.type_map n = some t) : lookupTM s₂.type_map n = some t := by
  obtain ⟨l, e⟩ := h
  rw [e]
  exact lookupTM_append_some hl

/-- A resolution step that only appends to the store's type map and leaves
the directive arena untouched. -/
def PreservesTM {α : Type} (m : M α) : Prop :=
  ∀ s, TMExt s (m s).2 ∧ (m s).2.directives = s.directives

theorem preservesTM_pure {α : Type} (a : α) : PreservesTM (M.pure a) :=
  fun s => ⟨TMExt.re s, rfl⟩

theorem preservesTM_fault {α : Type} : PreservesTM (M.fault : M α) :=
  fun s => ⟨TMExt.re s, rfl⟩

theorem preservesTM_absent {α : Type} : PreservesTM (M.absent : M α) :=
  fun s => ⟨TMExt.re s, rfl⟩

theorem preservesTM_lift {α : Type} (r : DRes α) : PreservesTM (M.lift r) := by
  cases r with
  | ok a => exact preservesTM_pure a
  | absent => exact fun s => ⟨TMExt.re s, rfl⟩
  | fault => exact fun s => ⟨TMExt.re s, rfl⟩

theorem preservesTM_opt {α : Type} (o : Option α) : PreservesTM (M.opt o) :=
  preservesTM_lift _

theorem preservesTM_unwrap {α : Type} (o : Option α) : PreservesTM (M.unwrap o) :=
  preservesTM_lift _

theorem preservesTM_vecGet {α : Type} (l : List α) (i : Nat) : PreservesTM (M.vecGet l i) := by
  intro s
  unfold M.vecGet
  cases l.get? i with
  | none => exact ⟨TMExt.re s, rfl⟩
  | some a => exact ⟨TMExt.re s, rfl⟩

theorem preservesTM_bind {α β : Type} {x : M α} {f : α → M β} (hx : PreservesTM x)
    (hf : ∀ a, PreservesTM (f a)) : PreservesTM (M.bind x f) := by
  intro s
  have h1 := hx s
  unfold M.bind
  rcases hxs : x s with ⟨res, s₁⟩
  rw [hxs] at h1
  cases res with
  | ok a =>
    have h2 := hf a s₁
    exact ⟨h1.1.tr h2.1, by rw [h2.2]; exact h1.2⟩
  | absent => exact h1
  | fault => exact h1

/-! ## The binary search only returns entries of the table -/

theorem charListCmp_eq : ∀ {a b : List Char}, charListCmp a b = .eq → a = b := by
  intro a
  induction a with
  | nil =>
    intro b h
    cases b with
    | nil => rfl
    | cons d ds => simp [charListCmp] at h
  | cons c cs ih =>
    intro b h
    cases b with
    | nil => simp [charListCmp] at h
    | cons d ds =>
      simp only [charListCmp] at h
      cases hc : compare c.toNat d.toNat with
      | eq =>
        rw [hc] at h
        have hcd : c.toNat = d.toNat := by
          have := Nat.compare_eq_eq.mp hc
          exact this
        have : c = d := Char.ext (UInt32.toNat.inj hcd)
        rw [this, ih h]
      | lt => rw [hc] at h; exact Ordering.noConfusion h
      | gt => rw [hc] at h; exact Ordering.noConfusion h

theorem strCmp_eq {k n : String} (h : strCmp k n = .eq) : k = n := by
  cases k with
  | mk ka =>
    cases n with
    | mk na =>
      have : ka = na := charListCmp_eq h
      rw [this]

/-- Whatever the search bounds, a `found` outcome carries an entry of the
table whose key is exactly the queried name. -/
theorem binSearchGo_found_mem {β : Type} (table : List (String × Option β)) (name : String) :
    ∀ (fuel start e : Nat) (v : Option β),
      binSearchGo table name start e fuel = .found v → (name, v) ∈ table := by
  intro fuel
  induction fuel with
  | zero => intro start e v h; exact BinSearchOutcome.noConfusion h
  | succ fuel ih =>
    intro start e v h
    by_cases hse : start ≤ e
    · cases hm : table.get? ((start + e) / 2) with
      | none =>
        simp only [binSearchGo, if_pos hse, hm] at h
        exact BinSearchOutcome.noConfusion h
      | some entry =>
        obtain ⟨k, v'⟩ := entry
        cases hc : strCmp k name with
        | eq =>
          simp only [binSearchGo, if_pos hse, hm, hc] at h
          have hkn : k = name := strCmp_eq hc
          have hmem : (k, v') ∈ table := List.get?_mem hm
          cases h
          rw [← hkn]
          exact hmem
        | lt =>
          simp only [binSearchGo, if_pos hse, hm, hc] at h
          exact ih _ _ _ h
        | gt =>
          simp only [binSearchGo, if_pos hse, hm, hc] at h
          by_cases hz : (start + e) / 2 = 0
          · rw [if_pos hz] at h
            exact BinSearchOutcome.noConfusion h
          · rw [if_neg hz] at h
            exact ih _ _ _ h
    · simp only [binSearchGo, if_neg hse] at h
      exact BinSearchOutcome.noConfusion h

theorem binSearch_found_mem {β : Type} {table : List (String × Option β)} {name : String}
    {v : Option β} (h : binSearch table name = .found v) : (name, v) ∈ table :=
  binSearchGo_found_mem table name _ _ _ v h

theorem preservesTM_addOrPanic {α : Type} {f : Schema → Option (α × Schema)}
    (hf : ∀ s r, f s = some r → TMExt s r.2 ∧ r.2.directives = s.directives) :
    PreservesTM (M.addOrPanic f) := by
  intro s
  unfold M.addOrPanic
  cases hfs : f s with
  | none => exact ⟨TMExt.re s, rfl⟩
  | some r => exact hf s r hfs

theorem add_scalar_ext (sc : Scalar) :
    ∀ (s : Schema) (r : Nat × Schema), s.add_scalar sc = some r →
      TMExt s r.2 ∧ r.2.directives = s.directives := by
  intro s r h
  unfold Schema.add_scalar at h
  by_cases hdup : (lookupTM s.type_map sc.name).isSome
  · rw [if_pos hdup] at h; exact Option.noConfusion h
  · rw [if_neg hdup] at h; cases h; exact ⟨⟨_, rfl⟩, rfl⟩

theorem add_object_ext (o : Object) :
    ∀ (s : Schema) (r : Nat × Schema), s.add_object o = some r →
      TMExt s r.2 ∧ r.2.directives = s.directives := by
  intro s r h
  unfold Schema.add_object at h
  by_cases hdup : (lookupTM s.type_map o.name).isSome
  · rw [if_pos hdup] at h; exact Option.noConfusion h
  · rw [if_neg hdup] at h; cases h; exact ⟨⟨_, rfl⟩, rfl⟩

theorem add_interface_ext (i : Interface) :
    ∀ (s : Schema) (r : Nat × Schema), s.add_interface i = some r →
      TMExt s r.2 ∧ r.2.directives = s.directives := by
  intro s r h
  unfold Schema.add_interface at h
  by_cases hdup : (lookupTM s.type_map i.name).isSome
  · rw [if_pos hdup] at h; exact Option.noConfusion h
  · rw [if_neg hdup] at h; cases h; exact ⟨⟨_, rfl⟩, rfl⟩

theorem add_union_ext (u : Union') :
    ∀ (s : Schema) (r : Nat × Schema), s.add_union u = some r →
      TMExt s r.2 ∧ r.2.directives = s.directives := by
  intro s r h
  unfold Schema.add_union at h
  by_cases hdup : (lookupTM s.type_map u.name).isSome
  · rw [if_pos hdup] at h; exact Option.noConfusion h
  · rw [if_neg hdup] at h; cases h; exact ⟨⟨_, rfl⟩, rfl⟩

theorem add_enum_ext (e : Enum') :
    ∀ (s : Schema) (r : Nat × Schema), s.add_enum e = some r →
      TMExt s r.2 ∧ r.2.directives = s.directives := by
  intro s r h
  unfold Schema.add_enum at h
  by_cases hdup : (lookupTM s.type_map e.name).isSome
  · rw [if_pos hdup] at h; exact Option.noConfusion h
  · rw [if_neg hdup] at h; cases h; exact ⟨⟨_, rfl⟩, rfl⟩

theorem add_input_object_ext (io : InputObject) :
    ∀ (s : Schema) (r : Nat × Schema), s.add_input_object io = some r →
      TMExt s r.2 ∧ r.2.directives = s.directives := by
  intro s r h
  unfold Schema.add_input_object at h
  by_cases hdup : (lookupTM s.type_map io.name).isSome
  · rw [if_pos hdup] at h; exact Option.noConfusion h
  · rw [if_neg hdup] at h; cases h; exact ⟨⟨_, rfl⟩, rfl⟩

/-- Every type-resolution step only appends to the store's type map and
never touches the directive arena, whatever the fuel. Proved for the whole
mutually recursive family at once by induction on fuel. -/
theorem preservesTM_all (fb : FlatBufferSchema) : ∀ fuel : Nat,
    (∀ n, PreservesTM (get_type fb fuel n)) ∧
    (∀ n, PreservesTM (read_type fb fuel n)) ∧
    (∀ t, PreservesTM (parse_type fb fuel t)) ∧
    (∀ i, PreservesTM (parse_scalar fb fuel i)) ∧
    (∀ i, PreservesTM (parse_input_object fb fuel i)) ∧
    (∀ i, PreservesTM (parse_enum fb fuel i)) ∧
    (∀ i, PreservesTM (parse_object fb fuel i)) ∧
    (∀ nid l, PreservesTM (object_fields_loop fb fuel nid l)) ∧
    (∀ nid l, PreservesTM (object_interfaces_loop fb fuel nid l)) ∧
    (∀ i, PreservesTM (parse_interface fb fuel i)) ∧
    (∀ nid l, PreservesTM (interface_fields_loop fb fuel nid l)) ∧
    (∀ nid l, PreservesTM (interface_parents_loop fb fuel nid l)) ∧
    (∀ nid l, PreservesTM (interface_objects_loop fb fuel nid l)) ∧
    (∀ i, PreservesTM (parse_union fb fuel i)) ∧
    (∀ nid l, PreservesTM (union_members_loop fb fuel nid l)) ∧
    (∀ i, PreservesTM (parse_field fb fuel i)) ∧
    (∀ l, PreservesTM (parse_arguments fb fuel l)) ∧
    (∀ l, PreservesTM (parse_arguments_go fb fuel l)) ∧
    (∀ a, PreservesTM (parse_argument fb fuel a)) ∧
    (∀ r, PreservesTM (parse_type_reference fb fuel r)) := by
  intro fuel
  induction fuel with
  | zero =>
    exact ⟨fun _ => preservesTM_fault, fun _ => preservesTM_fault, fun _ => preservesTM_fault,
      fun _ => preservesTM_fault, fun _ => preservesTM_fault, fun _ => preservesTM_fault,
      fun _ => preservesTM_fault, fun _ _ => preservesTM_fault, fun _ _ => preservesTM_fault,
      fun _ => preservesTM_fault, fun _ _ => preservesTM_fault, fun _ _ => preservesTM_fault,
      fun _ _ => preservesTM_fault, fun _ => preservesTM_fault, fun _ _ => preservesTM_fault,
      fun _ => preservesTM_fault, fun _ => preservesTM_fault, fun _ => preservesTM_fault,
      fun _ => preservesTM_fault, fun _ => preservesTM_fault⟩
  | succ fuel ih =>
    obtain ⟨ihgt, ihrt, ihpt, ihsc, ihio, ihen, ihob, ihofl, ihoil, ihit, ihifl, ihipl,
      ihiol, ihun, ihuml, ihfld, ihargs, ihargo, iharg, ihtr⟩ := ih
    refine ⟨?_, ?_, ?_, ?_, ?_, ?_, ?_, ?_, ?_, ?_, ?_, ?_, ?_, ?_, ?_, ?_, ?_, ?_, ?_, ?_⟩
    · -- get_type
      intro n s
      simp only [get_type]
      split
      · exact ihrt n s
      · cases s.get_type n <;> exact ⟨TMExt.re s, rfl⟩
    · -- read_type
      intro n s
      simp only [read_type]
      cases hb : binSearch fb.types n with
      | fault => exact ⟨TMExt.re s, rfl⟩
      | miss => exact ⟨TMExt.re s, rfl⟩
      | found o =>
        cases o with
        | none => exact ⟨TMExt.re s, rfl⟩
        | some t => exact ihpt t s
    · -- parse_type
      intro t
      cases hk : t.kind <;> simp only [parse_type, hk]
      · exact ihsc t.id
      · exact ihio t.id
      · exact ihen t.id
      · exact ihob t.id
      · exact ihit t.id
      · exact ihun t.id
    · -- parse_scalar
      intro i
      simp only [parse_scalar]
      refine preservesTM_bind (preservesTM_opt _) (fun scalars => ?_)
      refine preservesTM_bind (preservesTM_vecGet _ _) (fun scalar => ?_)
      refine preservesTM_bind (preservesTM_opt _) (fun name => ?_)
      refine preservesTM_bind (preservesTM_opt _) (fun dirs => ?_)
      refine preservesTM_bind (preservesTM_lift _) (fun directives => ?_)
      exact preservesTM_bind (preservesTM_addOrPanic (fun s r => add_scalar_ext _ s r))
        (fun nid => preservesTM_pure _)
    · -- parse_input_object
      intro i
      simp only [parse_input_object]
      refine preservesTM_bind (preservesTM_opt _) (fun input_objects => ?_)
      refine preservesTM_bind (preservesTM_vecGet _ _) (fun input_object => ?_)
      refine preservesTM_bind (preservesTM_opt _) (fun name => ?_)
      refine preservesTM_bind (preservesTM_opt _) (fun fieldArgs => ?_)
      refine preservesTM_bind (ihargs _) (fun fields => ?_)
      refine preservesTM_bind (preservesTM_opt _) (fun dirs => ?_)
      refine preservesTM_bind (preservesTM_lift _) (fun directives => ?_)
      exact preservesTM_bind (preservesTM_addOrPanic (fun s r => add_input_object_ext _ s r))
        (fun nid => preservesTM_pure _)
    · -- parse_enum
      intro i
      simp only [parse_enum]
      refine preservesTM_bind (preservesTM_opt _) (fun enums => ?_)
      refine preservesTM_bind (preservesTM_vecGet _ _) (fun enum_ => ?_)
      refine preservesTM_bind (preservesTM_opt _) (fun name => ?_)
      refine preservesTM_bind (preservesTM_opt _) (fun vals => ?_)
      refine preservesTM_bind (preservesTM_lift _) (fun values => ?_)
      refine preservesTM_bind (preservesTM_opt _) (fun dirs => ?_)
      refine preservesTM_bind (preservesTM_lift _) (fun directives => ?_)
      exact preservesTM_bind (preservesTM_addOrPanic (fun s r => add_enum_ext _ s r))
        (fun nid => preservesTM_pure _)
    · -- parse_object
      intro i
      simp only [parse_object]
      refine preservesTM_bind (preservesTM_opt _) (fun objects => ?_)
      refine preservesTM_bind (preservesTM_vecGet _ _) (fun object => ?_)
      refine preservesTM_bind (preservesTM_opt _) (fun name => ?_)
      refine preservesTM_bind (preservesTM_opt _) (fun dirs => ?_)
      refine preservesTM_bind (preservesTM_lift _) (fun directives => ?_)
      refine preservesTM_bind (preservesTM_addOrPanic (fun s r => add_object_ext _ s r))
        (fun new_id => ?_)
      refine preservesTM_bind (preservesTM_opt _) (fun fids => ?_)
      refine preservesTM_bind (ihofl new_id fids) (fun _ => ?_)
      refine preservesTM_bind (preservesTM_opt _) (fun iids => ?_)
      refine preservesTM_bind (ihoil new_id iids) (fun _ => ?_)
      exact preservesTM_pure _
    · -- object_fields_loop
      intro nid l
      cases l with
      | nil => simp only [object_fields_loop]; exact preservesTM_pure _
      | cons fid rest =>
        simp only [object_fields_loop]
        refine preservesTM_bind (ihfld fid) (fun field => ?_)
        refine preservesTM_bind (fun s => ⟨⟨[], (List.append_nil _).symm⟩, rfl⟩) (fun _ => ?_)
        exact ihofl nid rest
    · -- object_interfaces_loop
      intro nid l
      cases l with
      | nil => simp only [object_interfaces_loop]; exact preservesTM_pure _
      | cons iid rest =>
        simp only [object_interfaces_loop]
        refine preservesTM_bind (preservesTM_opt _) (fun interfaces => ?_)
        refine preservesTM_bind (preservesTM_vecGet _ _) (fun irec => ?_)
        refine preservesTM_bind (preservesTM_opt _) (fun iname => ?_)
        refine preservesTM_bind (ihgt iname) (fun interface => ?_)
        refine preservesTM_bind (preservesTM_opt _) (fun iid2 => ?_)
        refine preservesTM_bind (fun s => ⟨⟨[], (List.append_nil _).symm⟩, rfl⟩) (fun _ => ?_)
        exact ihoil nid rest
    · -- parse_interface
      intro i
      simp only [parse_interface]
      refine preservesTM_bind (preservesTM_opt _) (fun interfaces => ?_)
      refine preservesTM_bind (preservesTM_vecGet _ _) (fun interface => ?_)
      refine preservesTM_bind (preservesTM_opt _) (fun name => ?_)
      refine preservesTM_bind (preservesTM_opt _) (fun dirs => ?_)
      refine preservesTM_bind (preservesTM_lift _) (fun directives => ?_)
      refine preservesTM_bind (preservesTM_addOrPanic (fun s r => add_interface_ext _ s r))
        (fun new_id => ?_)
      refine preservesTM_bind (preservesTM_opt _) (fun fids => ?_)
      refine preservesTM_bind (ihifl new_id fids) (fun _ => ?_)
      refine preservesTM_bind (preservesTM_opt _) (fun pids => ?_)
      refine preservesTM_bind (ihipl new_id pids) (fun _ => ?_)
      refine preservesTM_bind (preservesTM_opt _) (fun oids => ?_)
      refine preservesTM_bind (ihiol new_id oids) (fun _ => ?_)
      exact preservesTM_pure _
    · -- interface_fields_loop
      intro nid l
      cases l with
      | nil => simp only [interface_fields_loop]; exact preservesTM_pure _
      | cons fid rest =>
        simp only [interface_fields_loop]
        refine preservesTM_bind (ihfld fid) (fun field => ?_)
        refine preservesTM_bind (fun s => ⟨⟨[], (List.append_nil _).symm⟩, rfl⟩) (fun _ => ?_)
        exact ihifl nid rest
    · -- interface_parents_loop
      intro nid l
      cases l with
      | nil => simp only [interface_parents_loop]; exact preservesTM_pure _
      | cons iid rest =>
        simp only [interface_parents_loop]
        refine preservesTM_bind (preservesTM_opt _) (fun interfaces => ?_)
        refine preservesTM_bind (preservesTM_vecGet _ _) (fun irec => ?_)
        refine preservesTM_bind (preservesTM_opt _) (fun iname => ?_)
        refine preservesTM_bind (ihgt iname) (fun interface => ?_)
        refine preservesTM_bind (preservesTM_opt _) (fun iid2 => ?_)
        refine preservesTM_bind (fun s => ⟨⟨[], (List.append_nil _).symm⟩, rfl⟩) (fun _ => ?_)
        exact ihipl nid rest
    · -- interface_objects_loop
      intro nid l
      cases l with
      | nil => simp only [interface_objects_loop]; exact preservesTM_pure _
      | cons oid rest =>
        simp only [interface_objects_loop]
        refine preservesTM_bind (preservesTM_opt _) (fun objects => ?_)
        refine preservesTM_bind (preservesTM_vecGet _ _) (fun orec => ?_)
        refine preservesTM_bind (preservesTM_opt _) (fun oname => ?_)
        refine preservesTM_bind (ihgt oname) (fun object => ?_)
        refine preservesTM_bind (preservesTM_opt _) (fun oid2 => ?_)
        refine preservesTM_bind (fun s => ⟨⟨[], (List.append_nil _).symm⟩, rfl⟩) (fun _ => ?_)
        exact ihiol nid rest
    · -- parse_union
      intro i
      simp only [parse_union]
      refine preservesTM_bind (preservesTM_opt _) (fun unions => ?_)
      refine preservesTM_bind (preservesTM_vecGet _ _) (fun union => ?_)
      refine preservesTM_bind (preservesTM_opt _) (fun name => ?_)
      refine preservesTM_bind (preservesTM_opt _) (fun dirs => ?_)
      refine preservesTM_bind (preservesTM_lift _) (fun directives => ?_)
      refine preservesTM_bind (preservesTM_addOrPanic (fun s r => add_union_ext _ s r))
        (fun new_id => ?_)
      refine preservesTM_bind (preservesTM_opt _) (fun oids => ?_)
      refine preservesTM_bind (ihuml new_id oids) (fun _ => ?_)
      exact preservesTM_pure _
    · -- union_members_loop
      intro nid l
      cases l with
      | nil => simp only [union_members_loop]; exact preservesTM_pure _
      | cons oid rest =>
        simp only [union_members_loop]
        refine preservesTM_bind (preservesTM_opt _) (fun objects => ?_)
        refine preservesTM_bind (preservesTM_vecGet _ _) (fun orec => ?_)
        refine preservesTM_bind (preservesTM_opt _) (fun oname => ?_)
        refine preservesTM_bind (ihgt oname) (fun object => ?_)
        refine preservesTM_bind (preservesTM_opt _) (fun oid2 => ?_)
        refine preservesTM_bind (fun s => ⟨⟨[], (List.append_nil _).symm⟩, rfl⟩) (fun _ => ?_)
        exact ihuml nid rest
    · -- parse_field
      intro i
      simp only [parse_field]
      refine preservesTM_bind (preservesTM_opt _) (fun fieldsTable => ?_)
      refine preservesTM_bind (preservesTM_vecGet _ _) (fun field => ?_)
      refine preservesTM_bind (preservesTM_opt _) (fun name => ?_)
      refine preservesTM_bind (preservesTM_opt _) (fun args => ?_)
      refine preservesTM_bind (ihargs args) (fun arguments => ?_)
      refine preservesTM_bind (preservesTM_opt _) (fun tref => ?_)
      refine preservesTM_bind (ihtr tref) (fun type_ => ?_)
      refine preservesTM_bind (preservesTM_opt _) (fun dirs => ?_)
      refine preservesTM_bind (preservesTM_lift _) (fun directives => ?_)
      refine preservesTM_bind (preservesTM_opt _) (fun ptype => ?_)
      refine preservesTM_bind (preservesTM_lift _) (fun pname => ?_)
      refine preservesTM_bind (fun s => ?_) (fun parent_type => ?_)
      · have hg := ihgt pname s
        rcases hgt : get_type fb fuel pname s with ⟨res, s₁⟩
        rw [hgt] at hg
        cases res with
        | ok t => simp only [hgt]; exact hg
        | absent => simp only [hgt]; exact hg
        | fault => simp only [hgt]; exact hg
      · exact fun s => ⟨⟨[], (List.append_nil _).symm⟩, rfl⟩
    · -- parse_arguments
      intro l
      simp only [parse_arguments]
      exact preservesTM_bind (ihargo l) (fun items => preservesTM_pure _)
    · -- parse_arguments_go
      intro l
      cases l with
      | nil => simp only [parse_arguments_go]; exact preservesTM_pure _
      | cons a rest =>
        simp only [parse_arguments_go]
        refine preservesTM_bind (iharg a) (fun arg => ?_)
        refine preservesTM_bind (ihargo rest) (fun args => ?_)
        exact preservesTM_pure _
    · -- parse_argument
      intro a
      simp only [parse_argument]
      refine preservesTM_bind (preservesTM_unwrap _) (fun name => ?_)
      refine preservesTM_bind ?_ (fun default_value => ?_)
      · cases a.value with
        | some v => exact preservesTM_bind (preservesTM_lift _) (fun c => preservesTM_pure _)
        | none => exact preservesTM_pure _
      · refine preservesTM_bind (preservesTM_opt _) (fun tref => ?_)
        refine preservesTM_bind (ihtr tref) (fun type_ => ?_)
        exact preservesTM_pure _
    · -- parse_type_reference
      intro r
      cases r with
      | named o =>
        simp only [parse_type_reference]
        refine preservesTM_bind (preservesTM_opt _) (fun fbt => ?_)
        refine preservesTM_bind (preservesTM_lift _) (fun type_name => ?_)
        intro s
        have hg := ihgt type_name s
        rcases hgt : get_type fb fuel type_name s with ⟨res, s₁⟩
        rw [hgt] at hg
        cases res with
        | ok t => simp only [hgt]; exact hg
        | absent => simp only [hgt]; exact hg
        | fault => simp only [hgt]; exact hg
      | nonNull o =>
        simp only [parse_type_reference]
        refine preservesTM_bind (preservesTM_opt _) (fun inner => ?_)
        refine preservesTM_bind (ihtr inner) (fun r' => ?_)
        exact preservesTM_pure _
      | list o =>
        simp only [parse_type_reference]
        refine preservesTM_bind (preservesTM_opt _) (fun inner => ?_)
        refine preservesTM_bind (ihtr inner) (fun r' => ?_)
        exact preservesTM_pure _

/-! ## Registration: a successful resolution caches the queried name

The encoder's contract ties every index entry's record to the entry's key;
under it, a successful `read_type` leaves the queried name bound in the
store's type map to exactly the returned type. -/

/-- The encoder's contract for the type index: every present record names
exactly its entry's key (`Bool`-valued so concrete buffers can be checked
by evaluation). -/
def WFTypeIndex (fb : FlatBufferSchema) : Prop :=
  fb.types.all (fun e =>
    match e.2 with
    | some fbt => get_fbtype_name fb fbt == .ok e.1
    | none => true) = true

/-- The encoder's contract for the directive index. -/
def WFDirectiveIndex (fb : FlatBufferSchema) : Prop :=
  fb.directives.all (fun e =>
    match e.2 with
    | some fbd => fbd.name == some e.1
    | none => true) = true

theorem WFTypeIndex.type_name_of_mem {fb : FlatBufferSchema} (h : WFTypeIndex fb)
    {k : String} {fbt : FBType} (hm : (k, some fbt) ∈ fb.types) :
    get_fbtype_name fb fbt = .ok k := by
  have := List.all_eq_true.mp h _ hm
  simpa using this

theorem WFDirectiveIndex.directive_name_of_mem {fb : FlatBufferSchema} (h : WFDirectiveIndex fb)
    {k : String} {fbd : FBDirective} (hm : (k, some fbd) ∈ fb.directives) :
    fbd.name = some k := by
  have := List.all_eq_true.mp h _ hm
  simpa using this

theorem get_fbtype_name_scalar_ok {fb : FlatBufferSchema} {id : Nat} {name : String}
    (h : get_fbtype_name fb { kind := FBTypeKind.scalar, id := id } = .ok name) :
    ∃ tbl rec, fb.scalars = some tbl ∧ tbl.get? id = some rec ∧ rec.name = some name := by
  simp only [get_fbtype_name] at h
  cases ht : fb.scalars with
  | none => rw [ht] at h; exact DRes.noConfusion h
  | some tbl =>
    rw [ht] at h
    simp only [optUnwrap, DRes.bind, vecGet] at h
    cases hr : tbl.get? id with
    | none => rw [hr] at h; exact DRes.noConfusion h
    | some rec =>
      rw [hr] at h
      simp only [DRes.bind] at h
      cases hn : rec.name with
      | none => rw [hn] at h; exact DRes.noConfusion h
      | some nm =>
        rw [hn] at h
        simp only [optUnwrap] at h
        cases h
        exact ⟨tbl, rec, rfl, hr, hn⟩

theorem get_fbtype_name_inputObject_ok {fb : FlatBufferSchema} {id : Nat} {name : String}
    (h : get_fbtype_name fb { kind := FBTypeKind.inputObject, id := id } = .ok name) :
    ∃ tbl rec, fb.input_objects = some tbl ∧ tbl.get? id = some rec ∧ rec.name = some name := by
  simp only [get_fbtype_name] at h
  cases ht : fb.input_objects with
  | none => rw [ht] at h; exact DRes.noConfusion h
  | some tbl =>
    rw [ht] at h
    simp only [optUnwrap, DRes.bind, vecGet] at h
    cases hr : tbl.get? id with
    | none => rw [hr] at h; exact DRes.noConfusion h
    | some rec =>
      rw [hr] at h
      simp only [DRes.bind] at h
      cases hn : rec.name with
      | none => rw [hn] at h; exact DRes.noConfusion h
      | some nm =>
        rw [hn] at h
        simp only [optUnwrap] at h
        cases h
        exact ⟨tbl, rec, rfl, hr, hn⟩

theorem get_fbtype_name_enum_ok {fb : FlatBufferSchema} {id : Nat} {name : String}
    (h : get_fbtype_name fb { kind := FBTypeKind.enum, id := id } = .ok name) :
    ∃ tbl rec, fb.enums = some tbl ∧ tbl.get? id = some rec ∧ rec.name = some name := by
  simp only [get_fbtype_name] at h
  cases ht : fb.enums with
  | none => rw [ht] at h; exact DRes.noConfusion h
  | some tbl =>
    rw [ht] at h
    simp only [optUnwrap, DRes.bind, vecGet] at h
    cases hr : tbl.get? id with
    | none => rw [hr] at h; exact DRes.noConfusion h
    | some rec =>
      rw [hr] at h
      simp only [DRes.bind] at h
      cases hn : rec.name with
      | none => rw [hn] at h; exact DRes.noConfusion h
      | some nm =>
        rw [hn] at h
        simp only [optUnwrap] at h
        cases h
        exact ⟨tbl, rec, rfl, hr, hn⟩

theorem get_fbtype_name_object_ok {fb : FlatBufferSchema} {id : Nat} {name : String}
    (h : get_fbtype_name fb { kind := FBTypeKind.object, id := id } = .ok name) :
    ∃ tbl rec, fb.objects = some tbl ∧ tbl.get? id = some rec ∧ rec.name = some name := by
  simp only [get_fbtype_name] at h
  cases ht : fb.objects with
  | none => rw [ht] at h; exact DRes.noConfusion h
  | some tbl =>
    rw [ht] at h
    simp only [optUnwrap, DRes.bind, vecGet] at h
    cases hr : tbl.get? id with
    | none => rw [hr] at h; exact DRes.noConfusion h
    | some rec =>
      rw [hr] at h
      simp only [DRes.bind] at h
      cases hn : rec.name with
      | none => rw [hn] at h; exact DRes.noConfusion h
      | some nm =>
        rw [hn] at h
        simp only [optUnwrap] at h
        cases h
        exact ⟨tbl, rec, rfl, hr, hn⟩

theorem get_fbtype_name_interface_ok {fb : FlatBufferSchema} {id : Nat} {name : String}
    (h : get_fbtype_name fb { kind := FBTypeKind.interface, id := id } = .ok name) :
    ∃ tbl rec, fb.interfaces = some tbl ∧ tbl.get? id = some rec ∧ rec.name = some name := by
  simp only [get_fbtype_name] at h
  cases ht : fb.interfaces with
  | none => rw [ht] at h; exact DRes.noConfusion h
  | some tbl =>
    rw [ht] at h
    simp only [optUnwrap, DRes.bind, vecGet] at h
    cases hr : tbl.get? id with
    | none => rw [hr] at h; exact DRes.noConfusion h
    | some rec =>
      rw [hr] at h
      simp only [DRes.bind] at h
      cases hn : rec.name with
      | none => rw [hn] at h; exact DRes.noConfusion h
      | some nm =>
        rw [hn] at h
        simp only [optUnwrap] at h
        cases h
        exact ⟨tbl, rec, rfl, hr, hn⟩

theorem get_fbtype_name_union_ok {fb : FlatBufferSchema} {id : Nat} {name : String}
    (h : get_fbtype_name fb { kind := FBTypeKind.union, id := id } = .ok name) :
    ∃ tbl rec, fb.unions = some tbl ∧ tbl.get? id = some rec ∧ rec.name = some name := by
  simp only [get_fbtype_name] at h
  cases ht : fb.unions with
  | none => rw [ht] at h; exact DRes.noConfusion h
  | some tbl =>
    rw [ht] at h
    simp only [optUnwrap, DRes.bind, vecGet] at h
    cases hr : tbl.get? id with
    | none => rw [hr] at h; exact DRes.noConfusion h
    | some rec =>
      rw [hr] at h
      simp only [DRes.bind] at h
      cases hn : rec.name with
      | none => rw [hn] at h; exact DRes.noConfusion h
      | some nm =>
        rw [hn] at h
        simp only [optUnwrap] at h
        cases h
        exact ⟨tbl, rec, rfl, hr, hn⟩

theorem parse_scalar_registers (fb : FlatBufferSchema) (fuel id : Nat) (name : String)
    (hname : get_fbtype_name fb { kind := FBTypeKind.scalar, id := id } = .ok name) :
    ∀ (s : Schema) (t : Type') (s' : Schema),
      parse_scalar fb fuel id s = (.ok t, s') → lookupTM s'.type_map name = some t := by
  obtain ⟨tbl, rec, htbl, hrec, hn⟩ := get_fbtype_name_scalar_ok hname
  intro s t s' h
  cases fuel with
  | zero => exact absurd (congrArg Prod.fst h) (by simp [parse_scalar, M.fault])
  | succ fuel =>
    cases hd : rec.directives with
    | none =>
      simp only [parse_scalar, M.bind, M.opt, M.lift, M.pure, optQ, M.vecGet, htbl, hrec, hn,
        hd] at h
      exact absurd (congrArg Prod.fst h) (by simp)
    | some ds =>
      cases hpd : parse_directive_values ds with
      | ok dv =>
        cases hadd : s.add_scalar
            { name := name, is_extension := rec.is_extension, directives := dv } with
        | none =>
          simp only [parse_scalar, M.bind, M.opt, M.lift, M.pure, optQ, M.vecGet, M.addOrPanic,
            htbl, hrec, hn, hd, hpd, hadd] at h
          exact absurd (congrArg Prod.fst h) (by simp)
        | some r =>
          simp only [parse_scalar, M.bind, M.opt, M.lift, M.pure, optQ, M.vecGet, M.addOrPanic,
            htbl, hrec, hn, hd, hpd, hadd] at h
          cases h
          unfold Schema.add_scalar at hadd
          cases hdup : lookupTM s.type_map name with
          | some x =>
            rw [hdup] at hadd
            simp at hadd
          | none =>
            rw [hdup] at hadd
            simp only [Option.isSome_none, Bool.false_eq_true, if_neg] at hadd
            cases hadd
            rw [lookupTM_append_none hdup]
            simp [lookupTM]
      | absent =>
        simp only [parse_scalar, M.bind, M.opt, M.lift, M.pure, optQ, M.vecGet, htbl, hrec, hn,
          hd, hpd] at h
        exact absurd (congrArg Prod.fst h) (by simp)
      | fault =>
        simp only [parse_scalar, M.bind, M.opt, M.lift, M.pure, optQ, M.vecGet, htbl, hrec, hn,
          hd, hpd] at h
        exact absurd (congrArg Prod.fst h) (by simp)

theorem parse_enum_registers (fb : FlatBufferSchema) (fuel id : Nat) (name : String)
    (hname : get_fbtype_name fb { kind := FBTypeKind.enum, id := id } = .ok name) :
    ∀ (s : Schema) (t : Type') (s' : Schema),
      parse_enum fb fuel id s = (.ok t, s') → lookupTM s'.type_map name = some t := by
  obtain ⟨tbl, rec, htbl, hrec, hn⟩ := get_fbtype_name_enum_ok hname
  intro s t s' h
  cases fuel with
  | zero => exact absurd (congrArg Prod.fst h) (by simp [parse_enum, M.fault])
  | succ fuel =>
    cases hv : rec.values with
    | none =>
      simp only [parse_enum, M.bind, M.opt, M.lift, M.pure, optQ, M.vecGet, htbl, hrec, hn,
        hv] at h
      exact absurd (congrArg Prod.fst h) (by simp)
    | some vs =>
      cases hpe : parse_enum_values vs with
      | ok evs =>
        cases hd : rec.directives with
        | none =>
          simp only [parse_enum, M.bind, M.opt, M.lift, M.pure, optQ, M.vecGet, htbl, hrec, hn,
            hv, hpe, hd] at h
          exact absurd (congrArg Prod.fst h) (by simp)
        | some ds =>
          cases hpd : parse_directive_values ds with
          | ok dv =>
            cases hadd : s.add_enum
                { name := name, is_extension := rec.is_extension, values := evs
                  directives := dv } with
            | none =>
              simp only [parse_enum, M.bind, M.opt, M.lift, M.pure, optQ, M.vecGet,
                M.addOrPanic, htbl, hrec, hn, hv, hpe, hd, hpd, hadd] at h
              exact absurd (congrArg Prod.fst h) (by simp)
            | some r =>
              simp only [parse_enum, M.bind, M.opt, M.lift, M.pure, optQ, M.vecGet,
                M.addOrPanic, htbl, hrec, hn, hv, hpe, hd, hpd, hadd] at h
              cases h
              unfold Schema.add_enum at hadd
              cases hdup : lookupTM s.type_map name with
              | some x =>
                rw [hdup] at hadd
                simp at hadd
              | none =>
                rw [hdup] at hadd
                simp only [Option.isSome_none, Bool.false_eq_true, if_neg] at hadd
                cases hadd
                rw [lookupTM_append_none hdup]
                simp [lookupTM]
          | absent =>
            simp only [parse_enum, M.bind, M.opt, M.lift, M.pure, optQ, M.vecGet, htbl, hrec,
              hn, hv, hpe, hd, hpd] at h
            exact absurd (congrArg Prod.fst h) (by simp)
          | fault =>
            simp only [parse_enum, M.bind, M.opt, M.lift, M.pure, optQ, M.vecGet, htbl, hrec,
              hn, hv, hpe, hd, hpd] at h
            exact absurd (congrArg Prod.fst h) (by simp)
      | absent =>
        simp only [parse_enum, M.bind, M.opt, M.lift, M.pure, optQ, M.vecGet, htbl, hrec, hn,
          hv, hpe] at h
        exact absurd (congrArg Prod.fst h) (by simp)
      | fault =>
        simp only [parse_enum, M.bind, M.opt, M.lift, M.pure, optQ, M.vecGet, htbl, hrec, hn,
          hv, hpe] at h
        exact absurd (congrArg Prod.fst h) (by simp)

theorem preservesTM_object_fields_loop (fb : FlatBufferSchema) (fuel nid : Nat) (l : List Nat) :
    PreservesTM (object_fields_loop fb fuel nid l) :=
  (preservesTM_all fb fuel).2.2.2.2.2.2.2.1 nid l

theorem preservesTM_object_interfaces_loop (fb : FlatBufferSchema) (fuel nid : Nat)
    (l : List Nat) : PreservesTM (object_interfaces_loop fb fuel nid l) :=
  (preservesTM_all fb fuel).2.2.2.2.2.2.2.2.1 nid l

theorem preservesTM_interface_fields_loop (fb : FlatBufferSchema) (fuel nid : Nat)
    (l : List Nat) : PreservesTM (interface_fields_loop fb fuel nid l) :=
  (preservesTM_all fb fuel).2.2.2.2.2.2.2.2.2.2.1 nid l

theorem preservesTM_interface_parents_loop (fb : FlatBufferSchema) (fuel nid : Nat)
    (l : List Nat) : PreservesTM (interface_parents_loop fb fuel nid l) :=
  (preservesTM_all fb fuel).2.2.2.2.2.2.2.2.2.2.2.1 nid l

theorem preservesTM_interface_objects_loop (fb : FlatBufferSchema) (fuel nid : Nat)
    (l : List Nat) : PreservesTM (interface_objects_loop fb fuel nid l) :=
  (preservesTM_all fb fuel).2.2.2.2.2.2.2.2.2.2.2.2.1 nid l

theorem preservesTM_union_members_loop (fb : FlatBufferSchema) (fuel nid : Nat)
    (l : List Nat) : PreservesTM (union_members_loop fb fuel nid l) :=
  (preservesTM_all fb fuel).2.2.2.2.2.2.2.2.2.2.2.2.2.2.1 nid l

theorem preservesTM_parse_arguments (fb : FlatBufferSchema) (fuel : Nat)
    (l : List FBArgument) : PreservesTM (parse_arguments fb fuel l) :=
  (preservesTM_all fb fuel).2.2.2.2.2.2.2.2.2.2.2.2.2.2.2.2.1 l

theorem parse_input_object_registers (fb : FlatBufferSchema) (fuel id : Nat) (name : String)
    (hname : get_fbtype_name fb { kind := FBTypeKind.inputObject, id := id } = .ok name) :
    ∀ (s : Schema) (t : Type') (s' : Schema),
      parse_input_object fb fuel id s = (.ok t, s') → lookupTM s'.type_map name = some t := by
  obtain ⟨tbl, rec, htbl, hrec, hn⟩ := get_fbtype_name_inputObject_ok hname
  intro s t s' h
  cases fuel with
  | zero => exact absurd (congrArg Prod.fst h) (by simp [parse_input_object, M.fault])
  | succ fuel =>
    cases hfa : rec.fields with
    | none =>
      simp only [parse_input_object, M.bind, M.opt, M.lift, M.pure, optQ, M.vecGet, htbl, hrec,
        hn, hfa] at h
      exact absurd (congrArg Prod.fst h) (by simp)
    | some fargs =>
      rcases hpa : parse_arguments fb fuel fargs s with ⟨ares, s₁⟩
      cases ares with
      | ok argdefs =>
        cases hd : rec.directives with
        | none =>
          simp only [parse_input_object, M.bind, M.opt, M.lift, M.pure, optQ, M.vecGet, htbl,
            hrec, hn, hfa, hpa, hd] at h
          exact absurd (congrArg Prod.fst h) (by simp)
        | some ds =>
          cases hpd : parse_directive_values ds with
          | ok dv =>
            cases hadd : s₁.add_input_object
                { name := name, fields := argdefs, directives := dv } with
            | none =>
              simp only [parse_input_object, M.bind, M.opt, M.lift, M.pure, optQ, M.vecGet,
                M.addOrPanic, htbl, hrec, hn, hfa, hpa, hd, hpd, hadd] at h
              exact absurd (congrArg Prod.fst h) (by simp)
            | some r =>
              simp only [parse_input_object, M.bind, M.opt, M.lift, M.pure, optQ, M.vecGet,
                M.addOrPanic, htbl, hrec, hn, hfa, hpa, hd, hpd, hadd] at h
              cases h
              unfold Schema.add_input_object at hadd
              cases hdup : lookupTM s₁.type_map name with
              | some x =>
                rw [hdup] at hadd
                simp at hadd
              | none =>
                rw [hdup] at hadd
                simp only [Option.isSome_none, Bool.false_eq_true, if_neg] at hadd
                cases hadd
                rw [lookupTM_append_none hdup]
                simp [lookupTM]
          | absent =>
            simp only [parse_input_object, M.bind, M.opt, M.lift, M.pure, optQ, M.vecGet, htbl,
              hrec, hn, hfa, hpa, hd, hpd] at h
            exact absurd (congrArg Prod.fst h) (by simp)
          | fault =>
            simp only [parse_input_object, M.bind, M.opt, M.lift, M.pure, optQ, M.vecGet, htbl,
              hrec, hn, hfa, hpa, hd, hpd] at h
            exact absurd (congrArg Prod.fst h) (by simp)
      | absent =>
        simp only [parse_input_object, M.bind, M.opt, M.lift, M.pure, optQ, M.vecGet, htbl,
          hrec, hn, hfa, hpa] at h
        exact absurd (congrArg Prod.fst h) (by simp)
      | fault =>
        simp only [parse_input_object, M.bind, M.opt, M.lift, M.pure, optQ, M.vecGet, htbl,
          hrec, hn, hfa, hpa] at h
        exact absurd (congrArg Prod.fst h) (by simp)

theorem parse_object_registers (fb : FlatBufferSchema) (fuel id : Nat) (name : String)
    (hname : get_fbtype_name fb { kind := FBTypeKind.object, id := id } = .ok name) :
    ∀ (s : Schema) (t : Type') (s' : Schema),
      parse_object fb fuel id s = (.ok t, s') → lookupTM s'.type_map name = some t := by
  obtain ⟨tbl, rec, htbl, hrec, hn⟩ := get_fbtype_name_object_ok hname
  intro s t s' h
  cases fuel with
  | zero => exact absurd (congrArg Prod.fst h) (by simp [parse_object, M.fault])
  | succ fuel =>
    cases hd : rec.directives with
    | none =>
      simp only [parse_object, M.bind, M.opt, M.lift, M.pure, optQ, M.vecGet, htbl, hrec, hn,
        hd] at h
      exact absurd (congrArg Prod.fst h) (by simp)
    | some ds =>
      cases hpd : parse_directive_values ds with
      | absent =>
        simp only [parse_object, M.bind, M.opt, M.lift, M.pure, optQ, M.vecGet, htbl, hrec, hn,
          hd, hpd] at h
        exact absurd (congrArg Prod.fst h) (by simp)
      | fault =>
        simp only [parse_object, M.bind, M.opt, M.lift, M.pure, optQ, M.vecGet, htbl, hrec, hn,
          hd, hpd] at h
        exact absurd (congrArg Prod.fst h) (by simp)
      | ok dv =>
        cases hadd : s.add_object
            { name := name, is_extension := rec.is_extension, fields := []
              interfaces := [], directives := dv } with
        | none =>
          simp only [parse_object, M.bind, M.opt, M.lift, M.pure, optQ, M.vecGet, M.addOrPanic,
            htbl, hrec, hn, hd, hpd, hadd] at h
          exact absurd (congrArg Prod.fst h) (by simp)
        | some r =>
          cases hf : rec.fields with
          | none =>
            simp only [parse_object, M.bind, M.opt, M.lift, M.pure, optQ, M.vecGet,
              M.addOrPanic, htbl, hrec, hn, hd, hpd, hadd, hf] at h
            exact absurd (congrArg Prod.fst h) (by simp)
          | some fids =>
            rcases hl1 : object_fields_loop fb fuel r.1 fids r.2 with ⟨res₁, s₃⟩
            cases res₁ with
            | absent =>
              simp only [parse_object, M.bind, M.opt, M.lift, M.pure, optQ, M.vecGet,
                M.addOrPanic, htbl, hrec, hn, hd, hpd, hadd, hf, hl1] at h
              exact absurd (congrArg Prod.fst h) (by simp)
            | fault =>
              simp only [parse_object, M.bind, M.opt, M.lift, M.pure, optQ, M.vecGet,
                M.addOrPanic, htbl, hrec, hn, hd, hpd, hadd, hf, hl1] at h
              exact absurd (congrArg Prod.fst h) (by simp)
            | ok u =>
              cases hi : rec.interfaces with
              | none =>
                simp only [parse_object, M.bind, M.opt, M.lift, M.pure, optQ, M.vecGet,
                  M.addOrPanic, htbl, hrec, hn, hd, hpd, hadd, hf, hl1, hi] at h
                exact absurd (congrArg Prod.fst h) (by simp)
              | some iids =>
                rcases hl2 : object_interfaces_loop fb fuel r.1 iids s₃ with ⟨res₂, s₄⟩
                cases res₂ with
                | absent =>
                  simp only [parse_object, M.bind, M.opt, M.lift, M.pure, optQ, M.vecGet,
                    M.addOrPanic, htbl, hrec, hn, hd, hpd, hadd, hf, hl1, hi, hl2] at h
                  exact absurd (congrArg Prod.fst h) (by simp)
                | fault =>
                  simp only [parse_object, M.bind, M.opt, M.lift, M.pure, optQ, M.vecGet,
                    M.addOrPanic, htbl, hrec, hn, hd, hpd, hadd, hf, hl1, hi, hl2] at h
                  exact absurd (congrArg Prod.fst h) (by simp)
                | ok u2 =>
                  simp only [parse_object, M.bind, M.opt, M.lift, M.pure, optQ, M.vecGet,
                    M.addOrPanic, htbl, hrec, hn, hd, hpd, hadd, hf, hl1, hi, hl2] at h
                  cases h
                  have he1 := (preservesTM_object_fields_loop fb fuel r.1 fids r.2).1
                  have he2 := (preservesTM_object_interfaces_loop fb fuel r.1 iids s₃).1
                  rw [hl1] at he1
                  rw [hl2] at he2
                  refine (he1.tr he2).lookup_some ?_
                  unfold Schema.add_object at hadd
                  cases hdup : lookupTM s.type_map name with
                  | some x =>
                    rw [hdup] at hadd
                    simp at hadd
                  | none =>
                    rw [hdup] at hadd
                    simp only [Option.isSome_none, Bool.false_eq_true, if_neg] at hadd
                    cases hadd
                    show lookupTM (s.type_map ++ [(name, Type'.object s.objects.length)]) name =
                      some (Type'.object s.objects.length)
                    rw [lookupTM_append_none hdup]
                    simp [lookupTM]

theorem parse_union_registers (fb : FlatBufferSchema) (fuel id : Nat) (name : String)
    (hname : get_fbtype_name fb { kind := FBTypeKind.union, id := id } = .ok name) :
    ∀ (s : Schema) (t : Type') (s' : Schema),
      parse_union fb fuel id s = (.ok t, s') → lookupTM s'.type_map name = some t := by
  obtain ⟨tbl, rec, htbl, hrec, hn⟩ := get_fbtype_name_union_ok hname
  intro s t s' h
  cases fuel with
  | zero => exact absurd (congrArg Prod.fst h) (by simp [parse_union, M.fault])
  | succ fuel =>
    cases hd : rec.directives with
    | none =>
      simp only [parse_union, M.bind, M.opt, M.lift, M.pure, optQ, M.vecGet, htbl, hrec, hn,
        hd] at h
      exact absurd (congrArg Prod.fst h) (by simp)
    | some ds =>
      cases hpd : parse_directive_values ds with
      | absent =>
        simp only [parse_union, M.bind, M.opt, M.lift, M.pure, optQ, M.vecGet, htbl, hrec, hn,
          hd, hpd] at h
        exact absurd (congrArg Prod.fst h) (by simp)
      | fault =>
        simp only [parse_union, M.bind, M.opt, M.lift, M.pure, optQ, M.vecGet, htbl, hrec, hn,
          hd, hpd] at h
        exact absurd (congrArg Prod.fst h) (by simp)
      | ok dv =>
        cases hadd : s.add_union
            { name := name, is_extension := rec.is_extension, members := []
              directives := dv } with
        | none =>
          simp only [parse_union, M.bind, M.opt, M.lift, M.pure, optQ, M.vecGet, M.addOrPanic,
            htbl, hrec, hn, hd, hpd, hadd] at h
          exact absurd (congrArg Prod.fst h) (by simp)
        | some r =>
          cases hm : rec.members with
          | none =>
            simp only [parse_union, M.bind, M.opt, M.lift, M.pure, optQ, M.vecGet, M.addOrPanic,
              htbl, hrec, hn, hd, hpd, hadd, hm] at h
            exact absurd (congrArg Prod.fst h) (by simp)
          | some oids =>
            rcases hl1 : union_members_loop fb fuel r.1 oids r.2 with ⟨res₁, s₃⟩
            cases res₁ with
            | absent =>
              simp only [parse_union, M.bind, M.opt, M.lift, M.pure, optQ, M.vecGet,
                M.addOrPanic, htbl, hrec, hn, hd, hpd, hadd, hm, hl1] at h
              exact absurd (congrArg Prod.fst h) (by simp)
            | fault =>
              simp only [parse_union, M.bind, M.opt, M.lift, M.pure, optQ, M.vecGet,
                M.addOrPanic, htbl, hrec, hn, hd, hpd, hadd, hm, hl1] at h
              exact absurd (congrArg Prod.fst h) (by simp)
            | ok u =>
              simp only [parse_union, M.bind, M.opt, M.lift, M.pure, optQ, M.vecGet,
                M.addOrPanic, htbl, hrec, hn, hd, hpd, hadd, hm, hl1] at h
              cases h
              have he1 := (preservesTM_union_members_loop fb fuel r.1 oids r.2).1
              rw [hl1] at he1
              refine he1.lookup_some ?_
              unfold Schema.add_union at hadd
              cases hdup : lookupTM s.type_map name with
              | some x =>
                rw [hdup] at hadd
                simp at hadd
              | none =>
                rw [hdup] at hadd
                simp only [Option.isSome_none, Bool.false_eq_true, if_neg] at hadd
                cases hadd
                show lookupTM (s.type_map ++ [(name, Type'.union s.unions.length)]) name =
                  some (Type'.union s.unions.length)
                rw [lookupTM_append_none hdup]
                simp [lookupTM]

theorem parse_interface_registers (fb : FlatBufferSchema) (fuel id : Nat) (name : String)
    (hname : get_fbtype_name fb { kind := FBTypeKind.interface, id := id } = .ok name) :
    ∀ (s : Schema) (t : Type') (s' : Schema),
      parse_interface fb fuel id s = (.ok t, s') → lookupTM s'.type_map name = some t := by
  obtain ⟨tbl, rec, htbl, hrec, hn⟩ := get_fbtype_name_interface_ok hname
  intro s t s' h
  cases fuel with
  | zero => exact absurd (congrArg Prod.fst h) (by simp [parse_interface, M.fault])
  | succ fuel =>
    cases hd : rec.directives with
    | none =>
      simp only [parse_interface, M.bind, M.opt, M.lift, M.pure, optQ, M.vecGet, htbl, hrec,
        hn, hd] at h
      exact absurd (congrArg Prod.fst h) (by simp)
    | some ds =>
      cases hpd : parse_directive_values ds with
      | absent =>
        simp only [parse_interface, M.bind, M.opt, M.lift, M.pure, optQ, M.vecGet, htbl, hrec,
          hn, hd, hpd] at h
        exact absurd (congrArg Prod.fst h) (by simp)
      | fault =>
        simp only [parse_interface, M.bind, M.opt, M.lift, M.pure, optQ, M.vecGet, htbl, hrec,
          hn, hd, hpd] at h
        exact absurd (congrArg Prod.fst h) (by simp)
      | ok dv =>
        cases hadd : s.add_interface
            { name := name, is_extension := rec.is_extension, implementing_objects := []
              fields := [], directives := dv, interfaces := [] } with
        | none =>
          simp only [parse_interface, M.bind, M.opt, M.lift, M.pure, optQ, M.vecGet,
            M.addOrPanic, htbl, hrec, hn, hd, hpd, hadd] at h
          exact absurd (congrArg Prod.fst h) (by simp)
        | some r =>
          cases hf : rec.fields with
          | none =>
            simp only [parse_interface, M.bind, M.opt, M.lift, M.pure, optQ, M.vecGet,
              M.addOrPanic, htbl, hrec, hn, hd, hpd, hadd, hf] at h
            exact absurd (congrArg Prod.fst h) (by simp)
          | some fids =>
            rcases hl1 : interface_fields_loop fb fuel r.1 fids r.2 with ⟨res₁, s₃⟩
            cases res₁ with
            | absent =>
              simp only [parse_interface, M.bind, M.opt, M.lift, M.pure, optQ, M.vecGet,
                M.addOrPanic, htbl, hrec, hn, hd, hpd, hadd, hf, hl1] at h
              exact absurd (congrArg Prod.fst h) (by simp)
            | fault =>
              simp only [parse_interface, M.bind, M.opt, M.lift, M.pure, optQ, M.vecGet,
                M.addOrPanic, htbl, hrec, hn, hd, hpd, hadd, hf, hl1] at h
              exact absurd (congrArg Prod.fst h) (by simp)
            | ok u =>
              cases hi : rec.interfaces with
              | none =>
                simp only [parse_interface, M.bind, M.opt, M.lift, M.pure, optQ, M.vecGet,
                  M.addOrPanic, htbl, hrec, hn, hd, hpd, hadd, hf, hl1, hi] at h
                exact absurd (congrArg Prod.fst h) (by simp)
              | some pids =>
                rcases hl2 : interface_parents_loop fb fuel r.1 pids s₃ with ⟨res₂, s₄⟩
                cases res₂ with
                | absent =>
                  simp only [parse_interface, M.bind, M.opt, M.lift, M.pure, optQ, M.vecGet,
                    M.addOrPanic, htbl, hrec, hn, hd, hpd, hadd, hf, hl1, hi, hl2] at h
                  exact absurd (congrArg Prod.fst h) (by simp)
                | fault =>
                  simp only [parse_interface, M.bind, M.opt, M.lift, M.pure, optQ, M.vecGet,
                    M.addOrPanic, htbl, hrec, hn, hd, hpd, hadd, hf, hl1, hi, hl2] at h
                  exact absurd (congrArg Prod.fst h) (by simp)
                | ok u2 =>
                  cases ho : rec.implementing_objects with
                  | none =>
                    simp only [parse_interface, M.bind, M.opt, M.lift, M.pure, optQ, M.vecGet,
                      M.addOrPanic, htbl, hrec, hn, hd, hpd, hadd, hf, hl1, hi, hl2, ho] at h
                    exact absurd (congrArg Prod.fst h) (by simp)
                  | some oids =>
                    rcases hl3 : interface_objects_loop fb fuel r.1 oids s₄ with ⟨res₃, s₅⟩
                    cases res₃ with
                    | absent =>
                      simp only [parse_interface, M.bind, M.opt, M.lift, M.pure, optQ, M.vecGet,
                        M.addOrPanic, htbl, hrec, hn, hd, hpd, hadd, hf, hl1, hi, hl2, ho,
                        hl3] at h
                      exact absurd (congrArg Prod.fst h) (by simp)
                    | fault =>
                      simp only [parse_interface, M.bind, M.opt, M.lift, M.pure, optQ, M.vecGet,
                        M.addOrPanic, htbl, hrec, hn, hd, hpd, hadd, hf, hl1, hi, hl2, ho,
                        hl3] at h
                      exact absurd (congrArg Prod.fst h) (by simp)
                    | ok u3 =>
                      simp only [parse_interface, M.bind, M.opt, M.lift, M.pure, optQ, M.vecGet,
                        M.addOrPanic, htbl, hrec, hn, hd, hpd, hadd, hf, hl1, hi, hl2, ho,
                        hl3] at h
                      cases h
                      have he1 := (preservesTM_interface_fields_loop fb fuel r.1 fids r.2).1
                      have he2 := (preservesTM_interface_parents_loop fb fuel r.1 pids s₃).1
                      have he3 := (preservesTM_interface_objects_loop fb fuel r.1 oids s₄).1
                      rw [hl1] at he1
                      rw [hl2] at he2
                      rw [hl3] at he3
                      refine ((he1.tr he2).tr he3).lookup_some ?_
                      unfold Schema.add_interface at hadd
                      cases hdup : lookupTM s.type_map name with
                      | some x =>
                        rw [hdup] at hadd
                        simp at hadd
                      | none =>
                        rw [hdup] at hadd
                        simp only [Option.isSome_none, Bool.false_eq_true, if_neg] at hadd
                        cases hadd
                        show lookupTM
                            (s.type_map ++ [(name, Type'.interface s.interfaces.length)]) name =
                          some (Type'.interface s.interfaces.length)
                        rw [lookupTM_append_none hdup]
                        simp [lookupTM]

theorem parse_type_registers (fb : FlatBufferSchema) (fuel : Nat) (fbt : FBType)
    (name : String) (hname : get_fbtype_name fb fbt = .ok name) :
    ∀ (s : Schema) (t : Type') (s' : Schema),
      parse_type fb fuel fbt s = (.ok t, s') → lookupTM s'.type_map name = some t := by
  intro s t s' h
  cases fuel with
  | zero => exact absurd (congrArg Prod.fst h) (by simp [parse_type, M.fault])
  | succ fuel =>
    obtain ⟨k, i⟩ := fbt
    cases k with
    | scalar =>
      simp only [parse_type] at h
      exact parse_scalar_registers fb fuel i name hname s t s' h
    | inputObject =>
      simp only [parse_type] at h
      exact parse_input_object_registers fb fuel i name hname s t s' h
    | enum =>
      simp only [parse_type] at h
      exact parse_enum_registers fb fuel i name hname s t s' h
    | object =>
      simp only [parse_type] at h
      exact parse_object_registers fb fuel i name hname s t s' h
    | interface =>
      simp only [parse_type] at h
      exact parse_interface_registers fb fuel i name hname s t s' h
    | union =>
      simp only [parse_type] at h
      exact parse_union_registers fb fuel i name hname s t s' h

theorem read_type_registers (fb : FlatBufferSchema) (hwf : WFTypeIndex fb) (fuel : Nat)
    (name : String) :
    ∀ (s : Schema) (t : Type') (s' : Schema),
      read_type fb fuel name s = (.ok t, s') → lookupTM s'.type_map name = some t := by
  intro s t s' h
  cases fuel with
  | zero => exact absurd (congrArg Prod.fst h) (by simp [read_type, M.fault])
  | succ fuel =>
    cases hb : binSearch fb.types name with
    | fault =>
      simp only [read_type, hb] at h
      exact absurd (congrArg Prod.fst h) (by simp [M.fault])
    | miss =>
      simp only [read_type, hb] at h
      exact absurd (congrArg Prod.fst h) (by simp [M.absent])
    | found o =>
      cases o with
      | none =>
        simp only [read_type, hb] at h
        exact absurd (congrArg Prod.fst h) (by simp [M.absent])
      | some fbt =>
        simp only [read_type, hb] at h
        exact parse_type_registers fb fuel fbt name
          (hwf.type_name_of_mem (binSearch_found_mem hb)) s t s' h

/-- A successful `get_type` leaves the store's cache answering the queried
name with exactly the returned type. -/
theorem get_type_caches (fb : FlatBufferSchema) (hwf : WFTypeIndex fb) (fuel : Nat)
    (name : String) :
    ∀ (s : Schema) (t : Type') (s' : Schema),
      get_type fb fuel name s = (.ok t, s') → s'.get_type name = some t := by
  intro s t s' h
  cases fuel with
  | zero => exact absurd (congrArg Prod.fst h) (by simp [get_type, M.fault])
  | succ fuel =>
    cases hht : s.has_type name with
    | false =>
      simp only [get_type, hht, Bool.not_false, if_pos] at h
      exact read_type_registers fb hwf fuel name s t s' h
    | true =>
      cases hg : s.get_type name with
      | some t' =>
        simp only [get_type, hht, Bool.not_true, Bool.false_eq_true, if_neg, hg] at h
        cases h
        exact hg
      | none =>
        simp only [get_type, hht, Bool.not_true, Bool.false_eq_true, if_neg, hg] at h
        exact absurd (congrArg Prod.fst h) (by simp)

theorem find?_append_none {α : Type} {p : α → Bool} {l₁ l₂ : List α}
    (h : l₁.find? p = none) : (l₁ ++ l₂).find? p = l₂.find? p := by
  induction l₁ with
  | nil => simp
  | cons a l ih =>
    cases hp : p a with
    | true => rw [List.find?_cons_of_pos _ hp] at h; exact Option.noConfusion h
    | false =>
      rw [List.find?_cons_of_neg _ (by simp [hp])] at h
      rw [List.cons_append, List.find?_cons_of_neg _ (by simp [hp])]
      exact ih h

theorem read_directive_registers (fb : FlatBufferSchema) (hwf : WFDirectiveIndex fb)
    (fuel : Nat) (n : String) :
    ∀ (s : Schema) (d : Directive) (s₁ : Schema),
      s.get_directive n = none → read_directive fb fuel n s = (.ok d, s₁) →
      s₁.get_directive n = some d := by
  intro s d s₁ hmiss h
  cases fuel with
  | zero => exact absurd (congrArg Prod.fst h) (by simp [read_directive, M.fault])
  | succ fuel =>
    cases hb : binSearch fb.directives n with
    | fault =>
      simp only [read_directive, hb] at h
      exact absurd (congrArg Prod.fst h) (by simp [M.fault])
    | miss =>
      simp only [read_directive, hb] at h
      exact absurd (congrArg Prod.fst h) (by simp [M.absent])
    | found o =>
      cases o with
      | none =>
        simp only [read_directive, hb] at h
        exact absurd (congrArg Prod.fst h) (by simp [M.absent])
      | some fbd =>
        simp only [read_directive, hb] at h
        have hnm : fbd.name = some n := hwf.directive_name_of_mem (binSearch_found_mem hb)
        cases fuel with
        | zero => exact absurd (congrArg Prod.fst h) (by simp [parse_directive, M.fault])
        | succ fuel =>
          cases hl : fbd.locations with
          | none =>
            simp only [parse_directive, M.bind, M.opt, M.lift, M.pure, optQ, hl] at h
            exact absurd (congrArg Prod.fst h) (by simp)
          | some locs =>
            cases hargs : fbd.arguments with
            | none =>
              simp only [parse_directive, M.bind, M.opt, M.lift, M.pure, optQ, hl, hnm,
                hargs] at h
              exact absurd (congrArg Prod.fst h) (by simp)
            | some args =>
              rcases hpa : parse_arguments fb fuel args s with ⟨ares, s₂⟩
              cases ares with
              | absent =>
                simp only [parse_directive, M.bind, M.opt, M.lift, M.pure, optQ, hl, hnm,
                  hargs, hpa] at h
                exact absurd (congrArg Prod.fst h) (by simp)
              | fault =>
                simp only [parse_directive, M.bind, M.opt, M.lift, M.pure, optQ, hl, hnm,
                  hargs, hpa] at h
                exact absurd (congrArg Prod.fst h) (by simp)
              | ok argdefs =>
                have hdeq : s₂.directives = s.directives := by
                  have hp := (preservesTM_parse_arguments fb fuel args s).2
                  rw [hpa] at hp
                  exact hp
                have hmiss₂ : s₂.get_directive n = none := by
                  unfold Schema.get_directive at hmiss ⊢
                  rw [hdeq]
                  exact hmiss
                cases hadd : s₂.add_directive
                    { name := n, is_extension := fbd.is_extension, arguments := argdefs
                      locations := locs.map get_mapped_location
                      repeatable := fbd.repeatable } with
                | none =>
                  simp only [parse_directive, M.bind, M.opt, M.lift, M.pure, optQ, hl, hnm,
                    hargs, hpa, M.addDirectiveOrPanic, hadd] at h
                  exact absurd (congrArg Prod.fst h) (by simp)
                | some s₃ =>
                  have hs₃ : s₃.get_directive n =
                      some { name := n, is_extension := fbd.is_extension, arguments := argdefs
                             locations := locs.map get_mapped_location
                             repeatable := fbd.repeatable } := by
                    unfold Schema.add_directive at hadd
                    rw [hmiss₂] at hadd
                    simp only [Option.isSome_none, Bool.false_eq_true, if_neg] at hadd
                    cases hadd
                    unfold Schema.get_directive at hmiss₂ ⊢
                    rw [find?_append_none hmiss₂]
                    simp [List.find?]
                  simp only [parse_directive, M.bind, M.opt, M.lift, M.pure, optQ, hl, hnm,
                    hargs, hpa, M.addDirectiveOrPanic, hadd, hs₃] at h
                  cases h
                  exact hs₃

theorem get_directive_caches (fb : FlatBufferSchema) (hwf : WFDirectiveIndex fb) (fuel : Nat)
    (n : String) :
    ∀ (s : Schema) (d : Directive) (s₁ : Schema),
      get_directive fb fuel n s = (.ok d, s₁) → s₁.get_directive n = some d := by
  intro s d s₁ h
  cases fuel with
  | zero => exact absurd (congrArg Prod.fst h) (by simp [get_directive, M.fault])
  | succ fuel =>
    cases hg : s.get_directive n with
    | none =>
      simp only [get_directive, hg, Option.isNone_none, if_pos] at h
      exact read_directive_registers fb hwf fuel n s d s₁ hg h
    | some d' =>
      simp only [get_directive, hg, Option.isNone_some, Bool.false_eq_true, if_neg] at h
      cases h
      exact hg

/-- A name the store already answers is returned unchanged by a fuel-1
`get_type` — a pure cache hit that re-enters neither the index nor any
decoder. -/
theorem get_type_cached_hit (fb : FlatBufferSchema) (n : String) (s : Schema) (t : Type')
    (hg : s.get_type n = some t) : get_type fb 1 n s = (.ok t, s) := by
  have hht : s.has_type n = true := by simp [Schema.has_type, hg]
  show get_type fb (0 + 1) n s = (.ok t, s)
  simp [get_type, hht, hg]

theorem get_directive_cached_hit (fb : FlatBufferSchema) (n : String) (s : Schema)
    (d : Directive) (hg : s.get_directive n = some d) :
    get_directive fb 1 n s = (.ok d, s) := by
  show get_directive fb (0 + 1) n s = (.ok d, s)
  simp [get_directive, hg]

/-! ## C2: resolution is memoized -/

/-- C2: under the encoder's index contract, whenever `get_type`
(respectively `get_directive`) first returns an entity, that entity is
registered in the schema store under the queried name, and a second call —
at fuel 1, i.e. a pure cache hit through `has_type` / `get_directive` that
cannot re-enter the binary index or the decoders — returns the identical
identity with the store unchanged. -/
theorem c2_memoized_resolution :
    (∀ (fb : FlatBufferSchema), WFTypeIndex fb →
      ∀ (fuel : Nat) (n : String) (s : Schema) (t : Type') (s₁ : Schema),
        get_type fb fuel n s = (.ok t, s₁) →
        s₁.has_type n = true ∧ get_type fb 1 n s₁ = (.ok t, s₁)) ∧
    (∀ (fb : FlatBufferSchema), WFDirectiveIndex fb →
      ∀ (fuel : Nat) (n : String) (s : Schema) (d : Directive) (s₁ : Schema),
        get_directive fb fuel n s = (.ok d, s₁) →
        s₁.get_directive n = some d ∧ get_directive fb 1 n s₁ = (.ok d, s₁)) := by
  constructor
  · intro fb hwf fuel n s t s₁ h
    have hc := get_type_caches fb hwf fuel n s t s₁ h
    exact ⟨by simp [Schema.has_type, hc], get_type_cached_hit fb n s₁ t hc⟩
  · intro fb hwf fuel n s d s₁ h
    have hc := get_directive_caches fb hwf fuel n s d s₁ h
    exact ⟨hc, get_directive_cached_hit fb n s₁ d hc⟩

/-- A buffer with one scalar type `"S"` and one directive `"d"`. -/
def fbMemo : FlatBufferSchema :=
  { types := [(("S"), some { kind := .scalar, id := 0 })]
    directives := [(("d"), some { name := some ("d"), is_extension := false
                                  repeatable := false, locations := some []
                                  arguments := some [] })]
    scalars := some [{ name := some ("S"), is_extension := false, directives := some [] }]
    objects := none, interfaces := none, unions := none, enums := none
    input_objects := none, fields := none }

/-- C2 witness: resolving `"S"` (type) and `"d"` (directive) in `fbMemo`
once caches them; the fuel-1 second call returns the same identity. -/
theorem c2_memoized_resolution_witness :
    ((get_type fbMemo 5 ("S") emptySchema).2.has_type ("S") = true ∧
      get_type fbMemo 1 ("S") (get_type fbMemo 5 ("S") emptySchema).2 =
        (.ok (.scalar 0), (get_type fbMemo 5 ("S") emptySchema).2)) ∧
    ((get_directive fbMemo 5 ("d") emptySchema).2.get_directive ("d") =
        some { name := ("d"), is_extension := false, arguments := []
               locations := [], repeatable := false } ∧
      get_directive fbMemo 1 ("d") (get_directive fbMemo 5 ("d") emptySchema).2 =
        (.ok { name := ("d"), is_extension := false, arguments := []
               locations := [], repeatable := false },
          (get_directive fbMemo 5 ("d") emptySchema).2)) :=
  ⟨c2_memoized_resolution.1 fbMemo (by unfold WFTypeIndex; decide) 5 ("S") emptySchema
     (.scalar 0) _ rfl,
   c2_memoized_resolution.2 fbMemo (by unfold WFDirectiveIndex; decide) 5 ("d") emptySchema
     { name := ("d"), is_extension := false, arguments := []
       locations := [], repeatable := false } _ rfl⟩

/-! ## C10: `has_type` is not read-only -/

/-- C10: the public `has_type` is `get_type(..).is_some()`; for a name not
yet cached whose resolution succeeds, `has_type` performs the full
resolution — it returns `true` with the *mutated* store in which the name
is now registered, and a subsequent fuel-1 `get_type` answers from that
cache with the same identity. -/
theorem c10_has_type_resolves_and_caches :
    ∀ (fb : FlatBufferSchema), WFTypeIndex fb →
      ∀ (fuel : Nat) (n : String) (s : Schema) (t : Type') (s₁ : Schema),
        s.has_type n = false →
        get_type fb fuel n s = (.ok t, s₁) →
        has_type fb fuel n s = (.ok true, s₁) ∧
        s₁.has_type n = true ∧
        get_type fb 1 n s₁ = (.ok t, s₁) := by
  intro fb hwf fuel n s t s₁ hmiss h
  have hc := get_type_caches fb hwf fuel n s t s₁ h
  refine ⟨?_, by simp [Schema.has_type, hc], get_type_cached_hit fb n s₁ t hc⟩
  unfold has_type
  rw [h]

/-- C10 witness: in `fbMemo`, `has_type "S"` on the fresh store resolves
and registers the scalar, and the subsequent lookup is a cache hit. -/
theorem c10_has_type_witness :
    has_type fbMemo 5 ("S") emptySchema =
      (.ok true, (get_type fbMemo 5 ("S") emptySchema).2) ∧
    (get_type fbMemo 5 ("S") emptySchema).2.has_type ("S") = true ∧
    get_type fbMemo 1 ("S") (get_type fbMemo 5 ("S") emptySchema).2 =
      (.ok (.scalar 0), (get_type fbMemo 5 ("S") emptySchema).2) :=
  c10_has_type_resolves_and_caches fbMemo (by unfold WFTypeIndex; decide) 5 ("S")
    emptySchema (.scalar 0) _ rfl rfl
